import Mathlib

/-!
A shallow embedding of the single-pass control-flow translator from
`src/translator_control.rs` (a Crenshaw-style tutorial compiler stage).

The translator owns a one-character lookahead, a byte-at-a-time input
stream, a label counter, and writes mnemonic text to an output sink.
We model it as explicit state passing: `St` carries the lookahead, the
remaining input, the label counter, and the output written so far,
together with ghost bookkeeping fields (the sequence of allocated label
names, per-construct tallies, the absolute index of the lookahead in the
original input, and the indices consumed by `get_name`).  The ghost
fields never influence the computation on `look`, `input`, `labels` or
`out`; they only record what happened, so that global properties of a
run can be stated.

Fallible operations return `PR α`: success with a value and a new state,
a fatal error carrying the state at the moment of failure (the program
aborts on the first error, with no recovery, so the error state is
final), or `fuelOut` for exhaustion of the structural-recursion fuel
that replaces the unbounded dispatch loop of `block` (we prove the fuel
chosen by `runProgram` is never exhausted).
-/

namespace TranslatorControl

/-- ASCII lowercase letter test, modelling `Ascii::is_lowercase`. -/
def asciiIsLower (c : Char) : Bool :=
  match c with
  | 'a' | 'b' | 'c' | 'd' | 'e' | 'f' | 'g' | 'h' | 'i' | 'j' | 'k' | 'l' | 'm'
  | 'n' | 'o' | 'p' | 'q' | 'r' | 's' | 't' | 'u' | 'v' | 'w' | 'x' | 'y' | 'z' => true
  | _ => false

/-- ASCII uppercase letter test, modelling `Ascii::is_uppercase`. -/
def asciiIsUpper (c : Char) : Bool :=
  match c with
  | 'A' | 'B' | 'C' | 'D' | 'E' | 'F' | 'G' | 'H' | 'I' | 'J' | 'K' | 'L' | 'M'
  | 'N' | 'O' | 'P' | 'Q' | 'R' | 'S' | 'T' | 'U' | 'V' | 'W' | 'X' | 'Y' | 'Z' => true
  | _ => false

/-- ASCII alphabetic test, modelling `Ascii::is_alphabetic` as used by `get_name`. -/
def asciiIsAlpha (c : Char) : Bool :=
  asciiIsLower c || asciiIsUpper c

/-- ASCII uppercasing, modelling `Ascii::to_uppercase` as used by `get_name`. -/
def asciiToUpper (c : Char) : Char :=
  match c with
  | 'a' => 'A' | 'b' => 'B' | 'c' => 'C' | 'd' => 'D' | 'e' => 'E' | 'f' => 'F'
  | 'g' => 'G' | 'h' => 'H' | 'i' => 'I' | 'j' => 'J' | 'k' => 'K' | 'l' => 'L'
  | 'm' => 'M' | 'n' => 'N' | 'o' => 'O' | 'p' => 'P' | 'q' => 'Q' | 'r' => 'R'
  | 's' => 'S' | 't' => 'T' | 'u' => 'U' | 'v' => 'V' | 'w' => 'W' | 'x' => 'X'
  | 'y' => 'Y' | 'z' => 'Z'
  | _ => c

/-- ASCII lowercasing (used only to express the case-toggling relation of C9). -/
def asciiToLower (c : Char) : Char :=
  match c with
  | 'A' => 'a' | 'B' => 'b' | 'C' => 'c' | 'D' => 'd' | 'E' => 'e' | 'F' => 'f'
  | 'G' => 'g' | 'H' => 'h' | 'I' => 'i' | 'J' => 'j' | 'K' => 'k' | 'L' => 'l'
  | 'M' => 'm' | 'N' => 'n' | 'O' => 'o' | 'P' => 'p' | 'Q' => 'q' | 'R' => 'r'
  | 'S' => 's' | 'T' => 't' | 'U' => 'u' | 'V' => 'v' | 'W' => 'w' | 'X' => 'x'
  | 'Y' => 'y' | 'Z' => 'z'
  | _ => c

/-- The same letter in the opposite case (identity on everything else). -/
def swapCase (c : Char) : Char :=
  if asciiIsLower c then asciiToUpper c
  else if asciiIsUpper c then asciiToLower c
  else c

/-- The structural characters of the mini-language: the statement
dispatch keys of `block` together with the block terminators. -/
def reservedChar (c : Char) : Bool :=
  match c with
  | 'i' | 'w' | 'p' | 'r' | 'f' | 'd' | 'e' | 'l' | 'u' => true
  | _ => false

/-- The three error kinds of the error-handling design. -/
inductive ErrKind where
  | inputExhausted
  | unexpectedChar
  | invalidName
deriving DecidableEq

/-- Ghost tallies of parsed constructs, one field per compound statement
form plus one for taken else branches.  Not present in the source; they
count events and never influence the computation. -/
structure Counts where
  cIf : Nat
  cElse : Nat
  cWhile : Nat
  cLoop : Nat
  cRepeat : Nat
  cFor : Nat
  cDo : Nat
deriving DecidableEq

/-- The zero tally. -/
def Counts.zero : Counts := ⟨0, 0, 0, 0, 0, 0, 0⟩

/-- Translator state: the `look` lookahead character, the unread rest of
the input, the label counter `labels`, and the output characters written
so far.  The remaining fields are ghost bookkeeping: `trace` records
every label name allocated, `counts` tallies parsed constructs, `pos`
counts the characters read so far (so the index of `look` in the
original input is `pos - 1`), `otherReads` and `forReads` record the
input indices consumed by `get_name` for a bare-identifier statement
resp. for a for-loop counter name. -/
structure St where
  look : Char
  input : List Char
  labels : Nat
  out : List Char
  trace : List String
  counts : Counts
  pos : Nat
  otherReads : List Nat
  forReads : List Nat
deriving DecidableEq

/-- Result of a fallible translation step: success, fatal error (with
the state at the failure, the error kind, and the printed diagnostic),
or fuel exhaustion of the embedding. -/
inductive PR (α : Type) where
  | ok : α → St → PR α
  | err : St → ErrKind → String → PR α
  | fuelOut : St → PR α
deriving DecidableEq

namespace PR

/-- The state carried by a result, whatever its kind. -/
def st {α : Type} : PR α → St
  | .ok _ s => s
  | .err s _ _ => s
  | .fuelOut s => s

/-- Sequencing: errors and fuel exhaustion abort the continuation. -/
def bind {α β : Type} : PR α → (α → St → PR β) → PR β
  | .ok a s, f => f a s
  | .err s k m, _ => .err s k m
  | .fuelOut s, _ => .fuelOut s

def isOk {α : Type} : PR α → Bool
  | .ok _ _ => true
  | _ => false

def isErr {α : Type} : PR α → Bool
  | .err _ _ _ => true
  | _ => false

def isFuelOut {α : Type} : PR α → Bool
  | .fuelOut _ => true
  | _ => false

end PR

/-- Observable outcome of a run: success, a fatal error with its kind
and diagnostic, or fuel exhaustion. -/
inductive Oc where
  | success
  | failure (k : ErrKind) (m : String)
  | noFuel
deriving DecidableEq

/-- Outcome classifier. -/
def ocOf {α : Type} : PR α → Oc
  | .ok _ _ => .success
  | .err _ k m => .failure k m
  | .fuelOut _ => .noFuel

/-- What an external observer sees of a run: the characters printed to
the output sink, plus the success/failure outcome. -/
def obs (r : PR Unit) : List Char × Oc :=
  (r.st.out, ocOf r)

/-- `emit`: write a tab then `text`, with no line break. -/
def emit (text : String) (s : St) : St :=
  { s with out := s.out ++ '\t' :: text.toList }

/-- `emitln`: write a tab, `text`, and a line break. -/
def emitln (text : String) (s : St) : St :=
  { s with out := s.out ++ '\t' :: (text.toList ++ ['\n']) }

/-- The diagnostic printed by `expected`. -/
def expectedMsg (tok : String) : String :=
  "Error: " ++ tok ++ " expected."

/-- `read`: load the next input character into the lookahead.  An empty
stream is a fatal condition (`.expect("expected another character")` in
the source). -/
def read (s : St) : PR Unit :=
  match s.input with
  | [] => .err s .inputExhausted "expected another character"
  | c :: rest => .ok () { s with look := c, input := rest, pos := s.pos + 1 }

/-- `match_ c`: if the lookahead is `c`, advance; otherwise fail with
the `expected` diagnostic for `c`. -/
def match_ (c : Char) (s : St) : PR Unit :=
  if s.look = c then read s
  else .err s .unexpectedChar (expectedMsg (String.singleton c))

/-- `get_name`: require an alphabetic lookahead, consume it, and return
its uppercase form. -/
def get_name (s : St) : PR Char :=
  if asciiIsAlpha s.look then
    (read s).bind fun _ s1 => .ok (asciiToUpper s.look) s1
  else
    .err s .invalidName (expectedMsg "Name")

/-- The textual form of the `n`-th label. -/
def labelName (n : Nat) : String :=
  "L" ++ Nat.repr n

/-- `new_label`: return `"L" + labels` and increment the counter.  The
allocated name is also ghost-recorded in `trace`. -/
def new_label (s : St) : String × St :=
  (labelName s.labels,
   { s with labels := s.labels + 1, trace := s.trace ++ [labelName s.labels] })

/-- `post_label`: write the label definition `name:` using `emit`, so
with no trailing line break. -/
def post_label (label : String) (s : St) : St :=
  emit (label ++ ":") s

/-- The `condition` stub: emits a fixed placeholder, consumes nothing. -/
def condition (s : St) : St :=
  emitln "<condition>" s

/-- The `expression` stub: emits a fixed placeholder, consumes nothing. -/
def expression (s : St) : St :=
  emitln "<expression>" s

/-- Ghost tally update. -/
def tally (f : Counts → Counts) (s : St) : St :=
  { s with counts := f s.counts }

/-- `get_name` as called from the for production; after a successful
read, the index of the consumed character (which is `pos - 2` of the
post-read state) is ghost-recorded in `forReads`. -/
def get_name_for (s : St) : PR Char :=
  (get_name s).bind fun name s1 =>
    .ok name { s1 with forReads := s1.forReads ++ [s1.pos - 2] }

/-- `get_name` as called from the other (bare identifier) production;
the consumed index is ghost-recorded in `otherReads`. -/
def get_name_other (s : St) : PR Char :=
  (get_name s).bind fun name s1 =>
    .ok name { s1 with otherReads := s1.otherReads ++ [s1.pos - 2] }

/-!
The statement productions.  Each compound production is written as a
function of the `blk` continuation used for its nested blocks; `block`
then ties the knot with structural recursion on a fuel parameter, and
`if_ fuel`, `while_ fuel`, ... abbreviate the productions with their
nested blocks parsed by `block fuel`.  Apart from this fuel plumbing
(and the ghost `tally` / read-index recording), each body follows the
source line by line.
-/

/-- The if production: `i <condition> <block> [ l <block> ] e`. -/
def if_aux (blk : St → PR Unit) (s : St) : PR Unit :=
  (match_ 'i' s).bind fun _ s =>
  let s := tally (fun c => { c with cIf := c.cIf + 1 }) s
  let (label1, s) := new_label s
  let s := condition s
  let s := emitln ("JZ " ++ label1) s
  (blk s).bind fun _ s =>
  (if s.look = 'l' then
    (match_ 'l' s).bind fun _ s =>
    let s := tally (fun c => { c with cElse := c.cElse + 1 }) s
    let (label2, s) := new_label s
    let s := emitln ("JMP " ++ label2) s
    let s := post_label label1 s
    (blk s).bind fun _ s => .ok label2 s
  else
    .ok label1 s).bind fun label2 s =>
  (match_ 'e' s).bind fun _ s =>
  .ok () (post_label label2 s)

/-- The while production: `w <condition> <block> e`. -/
def while_aux (blk : St → PR Unit) (s : St) : PR Unit :=
  (match_ 'w' s).bind fun _ s =>
  let s := tally (fun c => { c with cWhile := c.cWhile + 1 }) s
  let (label1, s) := new_label s
  let (label2, s) := new_label s
  let s := post_label label1 s
  let s := condition s
  let s := emitln ("JZ " ++ label2) s
  (blk s).bind fun _ s =>
  (match_ 'e' s).bind fun _ s =>
  let s := emitln ("JMP " ++ label1) s
  .ok () (post_label label2 s)

/-- The loop production: `p <block> e`. -/
def loop_aux (blk : St → PR Unit) (s : St) : PR Unit :=
  (match_ 'p' s).bind fun _ s =>
  let s := tally (fun c => { c with cLoop := c.cLoop + 1 }) s
  let (label, s) := new_label s
  let s := post_label label s
  (blk s).bind fun _ s =>
  (match_ 'e' s).bind fun _ s =>
  .ok () (emitln ("JMP " ++ label) s)

/-- The repeat production: `r <block> u <condition>`. -/
def repeat_aux (blk : St → PR Unit) (s : St) : PR Unit :=
  (match_ 'r' s).bind fun _ s =>
  let s := tally (fun c => { c with cRepeat := c.cRepeat + 1 }) s
  let (label, s) := new_label s
  let s := post_label label s
  (blk s).bind fun _ s =>
  (match_ 'u' s).bind fun _ s =>
  let s := condition s
  .ok () (emitln ("JZ " ++ label) s)

/-- The for production: `f <name> = <expr> <expr> <block> e`.  After a
successful `get_name` the consumed index (`pos - 2` of the state after
the read) is ghost-recorded in `forReads`. -/
def for_aux (blk : St → PR Unit) (s : St) : PR Unit :=
  let s := emitln "PUSH EBX" s
  (match_ 'f' s).bind fun _ s =>
  let s := tally (fun c => { c with cFor := c.cFor + 1 }) s
  let (label1, s) := new_label s
  let (label2, s) := new_label s
  (get_name_for s).bind fun name s =>
  (match_ '=' s).bind fun _ s =>
  let s := emitln ("<somehow load " ++ String.singleton name ++ ">") s
  let s := expression s
  let s := emitln "MOV EBX, EAX" s
  let s := expression s
  let s := emitln "SUB EAX, EBX" s
  let s := emitln ("JO " ++ label2) s
  let s := emitln ("<somehow store EAX to " ++ String.singleton name ++ ">") s
  let s := post_label label1 s
  (blk s).bind fun _ s =>
  (match_ 'e' s).bind fun _ s =>
  let s := emitln ("<somehow SUB " ++ String.singleton name ++ ", 1>") s
  let s := emitln ("JNZ " ++ label1) s
  let s := post_label label2 s
  .ok () (emitln "POP EBX" s)

/-- The do production: `d <expr> <block> e`. -/
def do_aux (blk : St → PR Unit) (s : St) : PR Unit :=
  (match_ 'd' s).bind fun _ s =>
  let s := tally (fun c => { c with cDo := c.cDo + 1 }) s
  let (label, s) := new_label s
  let s := expression s
  let s := emitln "MOV ECX, EAX" s
  let s := post_label label s
  (blk s).bind fun _ s =>
  let s := emitln ("LOOP " ++ label) s
  (match_ 'e' s).bind fun _ s =>
  .ok () s

/-- The other production: a bare identifier, emitted verbatim
(uppercased).  After a successful `get_name` the consumed index
(`pos - 2` of the state after the read) is ghost-recorded in
`otherReads`. -/
def other (s : St) : PR Unit :=
  (get_name_other s).bind fun name s =>
  .ok () (emitln (String.singleton name) s)

/-- The block production: repeatedly dispatch on the lookahead until a
terminator (`e`, `l`, `u`) is seen; the terminator is not consumed.
`fuel` bounds the number of dispatch-loop iterations. -/
def block : Nat → St → PR Unit
  | 0, s => .fuelOut s
  | fuel + 1, s =>
    if s.look = 'i' then (if_aux (block fuel) s).bind fun _ s => block fuel s
    else if s.look = 'w' then (while_aux (block fuel) s).bind fun _ s => block fuel s
    else if s.look = 'p' then (loop_aux (block fuel) s).bind fun _ s => block fuel s
    else if s.look = 'r' then (repeat_aux (block fuel) s).bind fun _ s => block fuel s
    else if s.look = 'f' then (for_aux (block fuel) s).bind fun _ s => block fuel s
    else if s.look = 'd' then (do_aux (block fuel) s).bind fun _ s => block fuel s
    else if s.look = 'e' then .ok () s
    else if s.look = 'l' then .ok () s
    else if s.look = 'u' then .ok () s
    else (other s).bind fun _ s => block fuel s

/-- The if production with nested blocks parsed at the given fuel. -/
def if_ (fuel : Nat) : St → PR Unit := if_aux (block fuel)

/-- The while production with its nested block parsed at the given fuel. -/
def while_ (fuel : Nat) : St → PR Unit := while_aux (block fuel)

/-- The loop production with its nested block parsed at the given fuel. -/
def loop_ (fuel : Nat) : St → PR Unit := loop_aux (block fuel)

/-- The repeat production with its nested block parsed at the given fuel. -/
def repeat_ (fuel : Nat) : St → PR Unit := repeat_aux (block fuel)

/-- The for production with its nested block parsed at the given fuel. -/
def for_ (fuel : Nat) : St → PR Unit := for_aux (block fuel)

/-- The do production with its nested block parsed at the given fuel. -/
def do_ (fuel : Nat) : St → PR Unit := do_aux (block fuel)

/-- The statement forms dispatched by `block`. -/
inductive StKind where
  | sIf | sWhile | sLoop | sRepeat | sFor | sDo | sOther
deriving DecidableEq

/-- Run one statement production of the given kind. -/
def runStmt : StKind → Nat → St → PR Unit
  | .sIf, fuel, s => if_ fuel s
  | .sWhile, fuel, s => while_ fuel s
  | .sLoop, fuel, s => loop_ fuel s
  | .sRepeat, fuel, s => repeat_ fuel s
  | .sFor, fuel, s => for_ fuel s
  | .sDo, fuel, s => do_ fuel s
  | .sOther, _, s => other s

/-- `program ::= block "e"`: parse a block, require (without consuming)
the lookahead to be `e`, and emit `END`. -/
def program (fuel : Nat) (s : St) : PR Unit :=
  (block fuel s).bind fun _ s =>
  if s.look ≠ 'e' then .err s .unexpectedChar (expectedMsg "End")
  else .ok () (emitln "END" s)

/-- The state at construction, before the priming read. -/
def initSt (inp : List Char) : St :=
  { look := '\x00', input := inp, labels := 0, out := [],
    trace := [], counts := Counts.zero, pos := 0,
    otherReads := [], forReads := [] }

/-- `init`: construct the translator and prime the lookahead by reading
the first character (a fatal error on empty input). -/
def init (inp : List Char) : PR Unit :=
  read (initSt inp)

/-- A whole run: prime the lookahead, then translate a program.  The
fuel `inp.length + 1` strictly exceeds the number of unread characters,
which (as proved below) rules out `fuelOut`. -/
def runProgram (inp : List Char) : PR Unit :=
  (init inp).bind fun _ s => program (inp.length + 1) s

/-!
### The step invariant

`StSt s s'` relates a state to any state reachable from it by a
translation step (successful or failed).  Its components are the facts
the claims need: output only grows (never retracted); the label trace
stays the list `L0, L1, ...` of all allocated labels; the label counter
and the weighted construct tallies advance in lockstep; the unread
stream (lookahead included) only shrinks, suffix-wise — no character is
skipped or re-read; the read position is monotone; ghost read-index
records only grow, new records are at least `pos - 1`, and all records
stay below `pos - 1`.
-/

/-- The allocated-labels ghost trace lists exactly the labels
`L0 ... L(labels-1)`, in order. -/
def TraceInv (s : St) : Prop :=
  s.trace = (List.range s.labels).map labelName

/-- Every ghost-recorded read index is at most `pos - 2`: the recorded
character was consumed strictly before the character now in `look`. -/
def ReadsBound (s : St) : Prop :=
  ∀ v ∈ s.otherReads ++ s.forReads, v + 2 ≤ s.pos

/-- The number of labels each construct allocates, summed over the
ghost tallies: one per if, loop, repeat and do, one extra per taken
else branch, two per while and per for. -/
def weight (c : Counts) : Nat :=
  c.cIf + c.cElse + 2 * c.cWhile + c.cLoop + c.cRepeat + 2 * c.cFor + c.cDo

/-- The step invariant: see the section doc above. -/
structure StSt (s s' : St) : Prop where
  outExt : ∃ t, s'.out = s.out ++ t
  traceInv : TraceInv s → TraceInv s'
  balance : s'.labels + weight s.counts = s.labels + weight s'.counts
  stream : ∃ pre, s.look :: s.input = pre ++ s'.look :: s'.input
  posMono : s.pos ≤ s'.pos
  otherMono : ∀ v ∈ s.otherReads, v ∈ s'.otherReads
  forMono : ∀ v ∈ s.forReads, v ∈ s'.forReads
  readsNew : ∀ v ∈ s'.otherReads ++ s'.forReads,
    v ∈ s.otherReads ++ s.forReads ∨ s.pos ≤ v + 1
  readsBound : ReadsBound s ∧ 1 ≤ s.pos → ReadsBound s' ∧ 1 ≤ s'.pos

theorem StSt.refl (s : St) : StSt s s where
  outExt := ⟨[], by simp⟩
  traceInv := fun h => h
  balance := rfl
  stream := ⟨[], by simp⟩
  posMono := Nat.le_refl _
  otherMono := fun _ hv => hv
  forMono := fun _ hv => hv
  readsNew := fun _ hv => Or.inl hv
  readsBound := fun h => h

theorem StSt.trans {s1 s2 s3 : St} (h12 : StSt s1 s2) (h23 : StSt s2 s3) :
    StSt s1 s3 where
  outExt := by
    obtain ⟨t1, e1⟩ := h12.outExt
    obtain ⟨t2, e2⟩ := h23.outExt
    exact ⟨t1 ++ t2, by rw [e2, e1, List.append_assoc]⟩
  traceInv := fun h => h23.traceInv (h12.traceInv h)
  balance := by have := h12.balance; have := h23.balance; omega
  stream := by
    obtain ⟨p1, e1⟩ := h12.stream
    obtain ⟨p2, e2⟩ := h23.stream
    exact ⟨p1 ++ p2, by rw [e1, e2, List.append_assoc]⟩
  posMono := Nat.le_trans h12.posMono h23.posMono
  otherMono := fun v hv => h23.otherMono v (h12.otherMono v hv)
  forMono := fun v hv => h23.forMono v (h12.forMono v hv)
  readsNew := by
    intro v hv
    rcases h23.readsNew v hv with h | h
    · exact h12.readsNew v h
    · exact Or.inr (Nat.le_trans h12.posMono h)
  readsBound := fun h => h23.readsBound (h12.readsBound h)

/-- Step invariant for a fallible step, about whatever state it ends in. -/
def StepOK {α : Type} (s : St) (r : PR α) : Prop :=
  StSt s r.st

theorem StepOK.bindStep {α β : Type} {s : St} {r : PR α} {f : α → St → PR β}
    (h1 : StepOK s r) (h2 : ∀ a s1, r = .ok a s1 → StepOK s1 (f a s1)) :
    StepOK s (r.bind f) := by
  cases r with
  | ok a s1 => exact StSt.trans h1 (h2 a s1 rfl)
  | err s1 k m => exact h1
  | fuelOut s1 => exact h1

theorem stepOK_read (s : St) : StepOK s (read s) := by
  unfold read
  cases h : s.input with
  | nil => exact StSt.refl s
  | cons c rest =>
    refine ⟨⟨[], by simp [PR.st]⟩, fun h => h, rfl, ⟨[s.look], by simp [PR.st, h]⟩,
      by simp [PR.st], ?_, ?_, ?_, ?_⟩
    · intro v hv; simpa [PR.st] using hv
    · intro v hv; simpa [PR.st] using hv
    · intro v hv; exact Or.inl (by simpa [PR.st] using hv)
    · intro hb
      refine ⟨fun v hv => ?_, by simp [PR.st]⟩
      have := hb.1 v (by simpa [PR.st] using hv)
      simp only [PR.st]
      omega

theorem stepOK_match (c : Char) (s : St) : StepOK s (match_ c s) := by
  unfold match_
  by_cases h : s.look = c
  · simpa [h] using stepOK_read s
  · simpa [h] using StSt.refl s

/-- A pure step that only appends to the output. -/
theorem stst_emitApp (s : St) (t : String) : StSt s (emit t s) := by
  refine ⟨⟨'\t' :: t.toList, rfl⟩, fun h => h, rfl, ⟨[], by simp [emit]⟩,
    Nat.le_refl _, ?_, ?_, ?_, ?_⟩
  · intro v hv; exact hv
  · intro v hv; exact hv
  · intro v hv; exact Or.inl hv
  · intro hb; exact hb

theorem stst_emitlnApp (s : St) (t : String) : StSt s (emitln t s) := by
  refine ⟨⟨'\t' :: (t.toList ++ ['\n']), rfl⟩, fun h => h, rfl, ⟨[], by simp [emitln]⟩,
    Nat.le_refl _, ?_, ?_, ?_, ?_⟩
  · intro v hv; exact hv
  · intro v hv; exact hv
  · intro v hv; exact Or.inl hv
  · intro hb; exact hb

theorem stst_post_label (s : St) (l : String) : StSt s (post_label l s) :=
  stst_emitApp s (l ++ ":")

theorem stst_condition (s : St) : StSt s (condition s) :=
  stst_emitlnApp s "<condition>"

theorem stst_expression (s : St) : StSt s (expression s) :=
  stst_emitlnApp s "<expression>"

/-- A tally bump followed by one label allocation preserves the
invariant when the bumped field has weight one. -/
theorem stst_tally_alloc1 (f : Counts → Counts) (s : St)
    (hw : ∀ c, weight (f c) = weight c + 1) :
    StSt s (new_label (tally f s)).2 := by
  refine ⟨⟨[], by simp [new_label, tally]⟩, ?_, ?_, ⟨[], by simp [new_label, tally]⟩,
    Nat.le_refl _, ?_, ?_, ?_, ?_⟩
  · intro h
    simp only [TraceInv, new_label, tally] at h ⊢
    rw [h, List.range_succ, List.map_append]
    simp
  · simp only [new_label, tally]
    have := hw s.counts
    omega
  · intro v hv; exact hv
  · intro v hv; exact hv
  · intro v hv; exact Or.inl hv
  · intro hb; exact hb

/-- A tally bump followed by two label allocations preserves the
invariant when the bumped field has weight two. -/
theorem stst_tally_alloc2 (f : Counts → Counts) (s : St)
    (hw : ∀ c, weight (f c) = weight c + 2) :
    StSt s (new_label (new_label (tally f s)).2).2 := by
  refine ⟨⟨[], by simp [new_label, tally]⟩, ?_, ?_,
    ⟨[], by simp [new_label, tally]⟩, Nat.le_refl _, ?_, ?_, ?_, ?_⟩
  · intro h
    simp only [TraceInv, new_label, tally] at h ⊢
    rw [h, List.range_succ, List.range_succ, List.map_append, List.map_append]
    simp
  · simp only [new_label, tally]
    have := hw s.counts
    omega
  · intro v hv; exact hv
  · intro v hv; exact hv
  · intro v hv; exact Or.inl hv
  · intro hb; exact hb

theorem stepOK_get_name (s : St) : StepOK s (get_name s) := by
  unfold get_name
  by_cases h : asciiIsAlpha s.look
  · simp only [h, if_true]
    exact StepOK.bindStep (stepOK_read s) (fun a s1 _ => StSt.refl s1)
  · simpa [h] using StSt.refl s

theorem stepOK_get_name_for (s : St) : StepOK s (get_name_for s) := by
  unfold get_name_for get_name read
  by_cases h : asciiIsAlpha s.look
  · rcases hin : s.input with _ | ⟨c, rest⟩
    · simp only [h, if_true, hin]
      exact StSt.refl s
    · simp only [h, if_true, hin, PR.bind]
      refine ⟨⟨[], by simp [StepOK, PR.st]⟩, fun h => h, rfl,
        ⟨[s.look], by simp [PR.st, hin]⟩, by simp [PR.st], ?_, ?_, ?_, ?_⟩
      · intro v hv; simpa [PR.st] using hv
      · intro v hv; simp only [PR.st, List.mem_append, List.mem_singleton]
        exact Or.inl hv
      · intro v hv
        simp only [PR.st, List.mem_append, List.mem_singleton] at hv
        rcases hv with hv | hv | hv
        · exact Or.inl (List.mem_append.mpr (Or.inl hv))
        · exact Or.inl (List.mem_append.mpr (Or.inr hv))
        · right; simp at hv; omega
      · rintro ⟨hb, hp⟩
        refine ⟨fun v hv => ?_, by simp [PR.st]⟩
        simp only [PR.st, List.mem_append, List.mem_singleton] at hv
        simp only [PR.st]
        rcases hv with hv | hv | hv
        · have := hb v (List.mem_append.mpr (Or.inl hv)); omega
        · have := hb v (List.mem_append.mpr (Or.inr hv)); omega
        · simp at hv ⊢; omega
  · simpa [h] using StSt.refl s

theorem stepOK_get_name_other (s : St) : StepOK s (get_name_other s) := by
  unfold get_name_other get_name read
  by_cases h : asciiIsAlpha s.look
  · rcases hin : s.input with _ | ⟨c, rest⟩
    · simp only [h, if_true, hin]
      exact StSt.refl s
    · simp only [h, if_true, hin, PR.bind]
      refine ⟨⟨[], by simp [StepOK, PR.st]⟩, fun h => h, rfl,
        ⟨[s.look], by simp [PR.st, hin]⟩, by simp [PR.st], ?_, ?_, ?_, ?_⟩
      · intro v hv; simp only [PR.st, List.mem_append, List.mem_singleton]
        exact Or.inl hv
      · intro v hv; simpa [PR.st] using hv
      · intro v hv
        simp only [PR.st, List.mem_append, List.mem_singleton] at hv
        rcases hv with (hv | hv) | hv
        · exact Or.inl (List.mem_append.mpr (Or.inl hv))
        · right; simp at hv; omega
        · exact Or.inl (List.mem_append.mpr (Or.inr hv))
      · rintro ⟨hb, hp⟩
        refine ⟨fun v hv => ?_, by simp [PR.st]⟩
        simp only [PR.st, List.mem_append, List.mem_singleton] at hv
        simp only [PR.st]
        rcases hv with (hv | hv) | hv
        · have := hb v (List.mem_append.mpr (Or.inl hv)); omega
        · simp at hv ⊢; omega
        · have := hb v (List.mem_append.mpr (Or.inr hv)); omega
  · simpa [h] using StSt.refl s

theorem stepOK_ok_pure {α : Type} {s s' : St} (a : α) (h : StSt s s') :
    StepOK s (.ok a s') := h

theorem stepOK_if_aux {blk : St → PR Unit} (hblk : ∀ s, StepOK s (blk s)) (s : St) :
    StepOK s (if_aux blk s) := by
  unfold if_aux
  refine StepOK.bindStep (stepOK_match 'i' s) ?_
  intro _ s1 _
  dsimp only
  refine StepOK.bindStep (StSt.trans (StSt.trans (stst_tally_alloc1 _ _ ?_)
    (StSt.trans (stst_condition _) (stst_emitlnApp _ _))) (hblk _)) ?_
  · intro c; simp only [weight]; omega
  intro _ s2 _
  refine StepOK.bindStep ?_ ?_
  · by_cases hl : s2.look = 'l'
    · rw [if_pos hl]
      refine StepOK.bindStep (stepOK_match 'l' s2) ?_
      intro _ s3 _
      dsimp only
      refine StepOK.bindStep (StSt.trans (StSt.trans (stst_tally_alloc1 _ _ ?_)
        (StSt.trans (stst_emitlnApp _ _) (stst_post_label _ _))) (hblk _)) ?_
      · intro c; simp only [weight]; omega
      intro _ s4 _
      exact stepOK_ok_pure _ (StSt.refl s4)
    · rw [if_neg hl]
      exact stepOK_ok_pure _ (StSt.refl s2)
  · intro label2 s3 _
    refine StepOK.bindStep (stepOK_match 'e' s3) ?_
    intro _ s4 _
    exact stepOK_ok_pure _ (stst_post_label s4 label2)

theorem stepOK_while_aux {blk : St → PR Unit} (hblk : ∀ s, StepOK s (blk s)) (s : St) :
    StepOK s (while_aux blk s) := by
  unfold while_aux
  refine StepOK.bindStep (stepOK_match 'w' s) ?_
  intro _ s1 _
  dsimp only
  refine StepOK.bindStep (StSt.trans (StSt.trans (stst_tally_alloc2 _ _ ?_)
    (StSt.trans (stst_post_label _ _) (StSt.trans (stst_condition _) (stst_emitlnApp _ _))))
    (hblk _)) ?_
  · intro c; simp only [weight]; omega
  intro _ s2 _
  refine StepOK.bindStep (stepOK_match 'e' s2) ?_
  intro _ s3 _
  exact stepOK_ok_pure _ (StSt.trans (stst_emitlnApp _ _) (stst_post_label _ _))

theorem stepOK_loop_aux {blk : St → PR Unit} (hblk : ∀ s, StepOK s (blk s)) (s : St) :
    StepOK s (loop_aux blk s) := by
  unfold loop_aux
  refine StepOK.bindStep (stepOK_match 'p' s) ?_
  intro _ s1 _
  dsimp only
  refine StepOK.bindStep (StSt.trans (StSt.trans (stst_tally_alloc1 _ _ ?_)
    (stst_post_label _ _)) (hblk _)) ?_
  · intro c; simp only [weight]; omega
  intro _ s2 _
  refine StepOK.bindStep (stepOK_match 'e' s2) ?_
  intro _ s3 _
  exact stepOK_ok_pure _ (stst_emitlnApp _ _)

theorem stepOK_repeat_aux {blk : St → PR Unit} (hblk : ∀ s, StepOK s (blk s)) (s : St) :
    StepOK s (repeat_aux blk s) := by
  unfold repeat_aux
  refine StepOK.bindStep (stepOK_match 'r' s) ?_
  intro _ s1 _
  dsimp only
  refine StepOK.bindStep (StSt.trans (StSt.trans (stst_tally_alloc1 _ _ ?_)
    (stst_post_label _ _)) (hblk _)) ?_
  · intro c; simp only [weight]; omega
  intro _ s2 _
  refine StepOK.bindStep (stepOK_match 'u' s2) ?_
  intro _ s3 _
  exact stepOK_ok_pure _ (StSt.trans (stst_condition _) (stst_emitlnApp _ _))

theorem stepOK_for_aux {blk : St → PR Unit} (hblk : ∀ s, StepOK s (blk s)) (s : St) :
    StepOK s (for_aux blk s) := by
  unfold for_aux
  dsimp only
  refine StSt.trans (stst_emitlnApp s "PUSH EBX") ?_
  refine StepOK.bindStep (stepOK_match 'f' _) ?_
  intro _ s1 _
  dsimp only
  refine StepOK.bindStep (StSt.trans (stst_tally_alloc2 _ _ ?_) (stepOK_get_name_for _)) ?_
  · intro c; simp only [weight]; omega
  intro name s2 _
  refine StepOK.bindStep (stepOK_match '=' s2) ?_
  intro _ s3 _
  dsimp only
  refine StepOK.bindStep (StSt.trans (StSt.trans (stst_emitlnApp _ _)
    (StSt.trans (stst_expression _) (StSt.trans (stst_emitlnApp _ _)
    (StSt.trans (stst_expression _) (StSt.trans (stst_emitlnApp _ _)
    (StSt.trans (stst_emitlnApp _ _) (StSt.trans (stst_emitlnApp _ _)
    (stst_post_label _ _)))))))) (hblk _)) ?_
  intro _ s4 _
  refine StepOK.bindStep (stepOK_match 'e' s4) ?_
  intro _ s5 _
  exact stepOK_ok_pure _ (StSt.trans (stst_emitlnApp _ _)
    (StSt.trans (stst_emitlnApp _ _) (StSt.trans (stst_post_label _ _) (stst_emitlnApp _ _))))

theorem stepOK_do_aux {blk : St → PR Unit} (hblk : ∀ s, StepOK s (blk s)) (s : St) :
    StepOK s (do_aux blk s) := by
  unfold do_aux
  refine StepOK.bindStep (stepOK_match 'd' s) ?_
  intro _ s1 _
  dsimp only
  refine StepOK.bindStep (StSt.trans (StSt.trans (stst_tally_alloc1 _ _ ?_)
    (StSt.trans (stst_expression _) (StSt.trans (stst_emitlnApp _ _) (stst_post_label _ _))))
    (hblk _)) ?_
  · intro c; simp only [weight]; omega
  intro _ s2 _
  refine StepOK.bindStep (StSt.trans (stst_emitlnApp _ _) (stepOK_match 'e' _)) ?_
  intro _ s3 _
  exact stepOK_ok_pure _ (StSt.refl s3)

theorem stepOK_other (s : St) : StepOK s (other s) := by
  unfold other
  refine StepOK.bindStep (stepOK_get_name_other s) ?_
  intro name s1 _
  exact stepOK_ok_pure _ (stst_emitlnApp _ _)

theorem stepOK_block (fuel : Nat) (s : St) : StepOK s (block fuel s) := by
  induction fuel generalizing s with
  | zero => exact StSt.refl s
  | succ fuel ih =>
    unfold block
    split
    · exact StepOK.bindStep (stepOK_if_aux ih s) (fun _ s1 _ => ih s1)
    split
    · exact StepOK.bindStep (stepOK_while_aux ih s) (fun _ s1 _ => ih s1)
    split
    · exact StepOK.bindStep (stepOK_loop_aux ih s) (fun _ s1 _ => ih s1)
    split
    · exact StepOK.bindStep (stepOK_repeat_aux ih s) (fun _ s1 _ => ih s1)
    split
    · exact StepOK.bindStep (stepOK_for_aux ih s) (fun _ s1 _ => ih s1)
    split
    · exact StepOK.bindStep (stepOK_do_aux ih s) (fun _ s1 _ => ih s1)
    split
    · exact StSt.refl s
    split
    · exact StSt.refl s
    split
    · exact StSt.refl s
    exact StepOK.bindStep (stepOK_other s) (fun _ s1 _ => ih s1)

theorem stepOK_runStmt (k : StKind) (fuel : Nat) (s : St) :
    StepOK s (runStmt k fuel s) := by
  cases k with
  | sIf => exact stepOK_if_aux (stepOK_block fuel) s
  | sWhile => exact stepOK_while_aux (stepOK_block fuel) s
  | sLoop => exact stepOK_loop_aux (stepOK_block fuel) s
  | sRepeat => exact stepOK_repeat_aux (stepOK_block fuel) s
  | sFor => exact stepOK_for_aux (stepOK_block fuel) s
  | sDo => exact stepOK_do_aux (stepOK_block fuel) s
  | sOther => exact stepOK_other s

theorem stepOK_program (fuel : Nat) (s : St) : StepOK s (program fuel s) := by
  unfold program
  refine StepOK.bindStep (stepOK_block fuel s) ?_
  intro _ s1 _
  by_cases h : s1.look = 'e'
  · simp only [h, ne_eq, not_true_eq_false, if_false]
    exact stepOK_ok_pure _ (stst_emitlnApp _ _)
  · simp only [ne_eq, h, not_false_eq_true, if_true]
    exact StSt.refl s1

theorem stepOK_runProgram (inp : List Char) : StepOK (initSt inp) (runProgram inp) := by
  unfold runProgram init
  exact StepOK.bindStep (stepOK_read _) (fun _ s1 _ => stepOK_program _ s1)

/-!
### Injectivity of the decimal label rendering

`new_label` renders the counter with `Nat.repr`; distinct counter values
give distinct label names because the decimal digit string can be decoded
back to the number.
-/

/-- Decimal digit value (zero on non-digits). -/
def digitVal (c : Char) : Nat :=
  match c with
  | '0' => 0 | '1' => 1 | '2' => 2 | '3' => 3 | '4' => 4
  | '5' => 5 | '6' => 6 | '7' => 7 | '8' => 8 | '9' => 9
  | _ => 0

/-- Decode a big-endian decimal digit string. -/
def digitsVal (l : List Char) : Nat :=
  l.foldl (fun a c => 10 * a + digitVal c) 0

theorem digitsVal_append_singleton (l : List Char) (c : Char) :
    digitsVal (l ++ [c]) = 10 * digitsVal l + digitVal c := by
  simp [digitsVal, List.foldl_append]

theorem digitVal_digitChar (d : Nat) (h : d < 10) :
    digitVal (Nat.digitChar d) = d := by
  interval_cases d <;> rfl

theorem toDigitsCore_append_eq (fuel n : Nat) (l : List Char) :
    Nat.toDigitsCore 10 fuel n l = Nat.toDigitsCore 10 fuel n [] ++ l := by
  induction fuel generalizing n l with
  | zero => simp [Nat.toDigitsCore]
  | succ fuel ih =>
    simp only [Nat.toDigitsCore]
    by_cases h : n / 10 = 0
    · simp [h]
    · simp only [h, if_false]
      rw [ih (n / 10) ((n % 10).digitChar :: l), ih (n / 10) [(n % 10).digitChar]]
      simp

theorem digitsVal_toDigitsCore (fuel n : Nat) (h : n < fuel) :
    digitsVal (Nat.toDigitsCore 10 fuel n []) = n := by
  induction fuel generalizing n with
  | zero => omega
  | succ fuel ih =>
    simp only [Nat.toDigitsCore]
    by_cases h0 : n / 10 = 0
    · have hlt : n < 10 := by omega
      simp only [h0, if_true]
      have : digitsVal [(n % 10).digitChar] = n % 10 := by
        simp [digitsVal, digitVal_digitChar (n % 10) (Nat.mod_lt _ (by norm_num))]
      rw [this, Nat.mod_eq_of_lt hlt]
    · simp only [h0, if_false]
      rw [toDigitsCore_append_eq, digitsVal_append_singleton,
        ih (n / 10) (by omega), digitVal_digitChar _ (Nat.mod_lt _ (by norm_num))]
      omega

theorem natRepr_injective : Function.Injective Nat.repr := by
  intro m n h
  have hm : digitsVal (Nat.repr m).data = m := by
    show digitsVal ((Nat.toDigits 10 m).asString).data = m
    show digitsVal (Nat.toDigits 10 m) = m
    exact digitsVal_toDigitsCore (m + 1) m (Nat.lt_succ_self m)
  have hn : digitsVal (Nat.repr n).data = n := by
    show digitsVal ((Nat.toDigits 10 n).asString).data = n
    show digitsVal (Nat.toDigits 10 n) = n
    exact digitsVal_toDigitsCore (n + 1) n (Nat.lt_succ_self n)
  rw [← hm, ← hn, h]

theorem labelName_injective : Function.Injective labelName := by
  intro m n h
  apply natRepr_injective
  have hd : ('L' :: (Nat.repr m).data) = ('L' :: (Nat.repr n).data) := by
    have := congrArg String.data h
    simpa [labelName, String.data_append] using this
  have : (Nat.repr m).data = (Nat.repr n).data := by
    injection hd
  exact String.ext this

/-- The number of branch/loop constructs compiled, per the ghost tallies. -/
def totalConstructs (c : Counts) : Nat :=
  c.cIf + c.cWhile + c.cLoop + c.cRepeat + c.cFor + c.cDo

/-- C1: for the input "iaee", the program emits exactly, in order: a tab,
`<condition>`, newline; a tab, `JZ L0`, newline; a tab, `A`, newline; a
tab, `L0:` with no trailing newline, followed on the same output line by
a tab and `END`, newline — and the run succeeds. -/
theorem claim1_iaee_output :
    (runProgram "iaee".toList).st.out =
      "\t<condition>\n\tJZ L0\n\tA\n\tL0:\tEND\n".toList
    ∧ ocOf (runProgram "iaee".toList) = Oc.success := by
  exact ⟨rfl, rfl⟩

/-- C3, corrected: the original claim (labels allocated equal the number
of branch/loop constructs compiled) fails on the input "wee", which
translates successfully, compiles exactly one construct (one while), but
allocates two labels. -/
theorem claim3_counterexample :
    ocOf (runProgram "wee".toList) = Oc.success
    ∧ (runProgram "wee".toList).st.labels = 2
    ∧ totalConstructs (runProgram "wee".toList).st.counts = 1
    ∧ (runProgram "wee".toList).st.labels ≠
        totalConstructs (runProgram "wee".toList).st.counts := by
  refine ⟨rfl, rfl, rfl, ?_⟩
  decide

/-- C3, amended: for every program that translates without error, the
total number of labels allocated equals the number of branch/loop
constructs compiled plus one extra label for each while, each for, and
each if-statement whose else branch is present. -/
theorem claim3_labels_equal_weighted_constructs (inp : List Char) (s1 : St)
    (h : runProgram inp = .ok () s1) :
    s1.labels = totalConstructs s1.counts
      + (s1.counts.cElse + s1.counts.cWhile + s1.counts.cFor) := by
  have hb := (stepOK_runProgram inp).balance
  rw [h] at hb
  simp only [PR.st, initSt, Counts.zero, weight, totalConstructs] at hb ⊢
  omega

/-- Witness for C3: the amended equality holds on the concrete successful
run of "wee". -/
theorem claim3_witness :
    (runProgram "wee".toList).st.labels =
      totalConstructs (runProgram "wee".toList).st.counts
      + ((runProgram "wee".toList).st.counts.cElse
        + (runProgram "wee".toList).st.counts.cWhile
        + (runProgram "wee".toList).st.counts.cFor) :=
  claim3_labels_equal_weighted_constructs "wee".toList
    (runProgram "wee".toList).st rfl

/-- C5: `new_label` returns `"L"` followed by the current counter value
and increments the counter; consequently, over any entire run the ghost
trace of allocated label names is exactly `L0, L1, ..., L(labels-1)` in
allocation order (strictly increasing numbering, never reset), and these
names are pairwise distinct — labels are never reused, regardless of
construct nesting. -/
theorem claim5_label_allocation :
    (∀ s : St, new_label s =
      (labelName s.labels,
        { s with labels := s.labels + 1, trace := s.trace ++ [labelName s.labels] }))
    ∧ (∀ inp : List Char,
        (runProgram inp).st.trace =
          (List.range (runProgram inp).st.labels).map labelName)
    ∧ (∀ inp : List Char, ((runProgram inp).st.trace).Nodup) := by
  refine ⟨fun s => rfl, fun inp => ?_, fun inp => ?_⟩
  · exact (stepOK_runProgram inp).traceInv rfl
  · have h : (runProgram inp).st.trace =
        (List.range (runProgram inp).st.labels).map labelName :=
      (stepOK_runProgram inp).traceInv rfl
    rw [h]
    exact List.Nodup.map labelName_injective (List.nodup_range _)

/-- C6: `program` parses a block and then requires the lookahead to be
`e` — checked but not consumed (the final state of a successful run is
the block's final state with only `END` appended, its lookahead and
unread input untouched) — emitting `END` on success and failing with the
`End expected` diagnostic on any other trailing character; and on the
input consisting solely of "e" it emits exactly one line: tab, `END`,
newline. -/
theorem claim6_program_end :
    (∀ (fuel : Nat) (s : St) (u : Unit) (s1 : St), block fuel s = .ok u s1 →
      program fuel s =
        if s1.look = 'e' then .ok () (emitln "END" s1)
        else .err s1 .unexpectedChar (expectedMsg "End"))
    ∧ (runProgram "e".toList).st.out = "\tEND\n".toList
    ∧ ocOf (runProgram "e".toList) = Oc.success := by
  refine ⟨?_, rfl, rfl⟩
  intro fuel s u s1 h
  unfold program
  rw [h]
  simp only [PR.bind]
  by_cases he : s1.look = 'e'
  · simp [he]
  · simp [he]

theorem PR.bind_ok_inv {α β : Type} {r : PR α} {f : α → St → PR β} {b : β} {s' : St}
    (h : r.bind f = .ok b s') : ∃ a s1, r = .ok a s1 ∧ f a s1 = .ok b s' := by
  cases r with
  | ok a s1 => exact ⟨a, s1, rfl, h⟩
  | err s1 k m => simp [PR.bind] at h
  | fuelOut s1 => simp [PR.bind] at h

/-- A block only returns normally on an unconsumed terminator character. -/
theorem block_ok_look (fuel : Nat) : ∀ (s : St) (u : Unit) (s1 : St),
    block fuel s = .ok u s1 → s1.look = 'e' ∨ s1.look = 'l' ∨ s1.look = 'u' := by
  induction fuel with
  | zero => intro s u s1 h; simp [block] at h
  | succ fuel ih =>
    intro s u s1 h
    unfold block at h
    split at h
    · obtain ⟨a, s2, h1, h2⟩ := PR.bind_ok_inv h
      exact ih s2 a s1 h2
    split at h
    · obtain ⟨a, s2, h1, h2⟩ := PR.bind_ok_inv h
      exact ih s2 a s1 h2
    split at h
    · obtain ⟨a, s2, h1, h2⟩ := PR.bind_ok_inv h
      exact ih s2 a s1 h2
    split at h
    · obtain ⟨a, s2, h1, h2⟩ := PR.bind_ok_inv h
      exact ih s2 a s1 h2
    split at h
    · obtain ⟨a, s2, h1, h2⟩ := PR.bind_ok_inv h
      exact ih s2 a s1 h2
    split at h
    · obtain ⟨a, s2, h1, h2⟩ := PR.bind_ok_inv h
      exact ih s2 a s1 h2
    split at h
    · rename_i he
      cases h
      exact Or.inl he
    split at h
    · rename_i hl
      cases h
      exact Or.inr (Or.inl hl)
    split at h
    · rename_i hu
      cases h
      exact Or.inr (Or.inr hu)
    obtain ⟨a, s2, h1, h2⟩ := PR.bind_ok_inv h
    exact ih s2 a s1 h2

/-- Witness for C6: instantiating the universal part on a concrete state
whose block immediately terminates on lookahead `e`. -/
theorem claim6_witness :
    program 1 ⟨'e', [], 0, [], [], Counts.zero, 1, [], []⟩ =
      if (⟨'e', [], 0, [], [], Counts.zero, 1, [], []⟩ : St).look = 'e'
      then .ok () (emitln "END" ⟨'e', [], 0, [], [], Counts.zero, 1, [], []⟩)
      else .err ⟨'e', [], 0, [], [], Counts.zero, 1, [], []⟩ .unexpectedChar
        (expectedMsg "End") :=
  claim6_program_end.1 1 ⟨'e', [], 0, [], [], Counts.zero, 1, [], []⟩ ()
    ⟨'e', [], 0, [], [], Counts.zero, 1, [], []⟩ rfl

/-- C4, corrected: a `match_` mismatch and an invalid name print the
`Error: <token> expected.` diagnostic and abort at once (the error state
is exactly the state at the failure, and sequencing propagates the error
unchanged — no catch, retry, or resynchronization); but exhausting the
input aborts through the stream reader with the diagnostic
`expected another character`, not an `Error: ...` line. -/
theorem claim4_fatal_diagnostics :
    (∀ s : St, s.input = [] →
      read s = .err s .inputExhausted "expected another character")
    ∧ (∀ (s : St) (c : Char), s.look ≠ c →
        match_ c s = .err s .unexpectedChar (expectedMsg (String.singleton c)))
    ∧ (∀ s : St, asciiIsAlpha s.look = false →
        get_name s = .err s .invalidName (expectedMsg "Name"))
    ∧ (∀ (s : St) (k : ErrKind) (m : String) (f : Unit → St → PR Unit),
        PR.bind (.err s k m) f = .err s k m) := by
  refine ⟨?_, ?_, ?_, ?_⟩
  · intro s h
    simp [read, h]
  · intro s c h
    simp [match_, h]
  · intro s h
    simp [get_name, h]
  · intro s k m f
    rfl

/-- Counterexample for C4 as stated: on the input "i" the first error is
`InputExhausted`, and its diagnostic is the reader panic message
`expected another character`, which has neither the form
`Error: <detail>.` nor the form `Error: <token> expected.`. -/
theorem claim4_counterexample :
    runProgram "i".toList =
      .err (runProgram "i".toList).st .inputExhausted "expected another character"
    ∧ (∀ d : String, "expected another character" ≠ "Error: " ++ d ++ ".")
    ∧ (∀ t : String, "expected another character" ≠ "Error: " ++ t ++ " expected.") := by
  refine ⟨rfl, ?_, ?_⟩
  · intro d h
    have h2 : ("Error: " ++ d ++ ".").data.head? = some 'e' := by
      rw [← h]
      rfl
    have h3 : ("Error: " ++ d ++ ".").data.head? = some 'E' := by
      rw [String.data_append, String.data_append]
      rfl
    rw [h2] at h3
    simp at h3
  · intro t h
    have h2 : ("Error: " ++ t ++ " expected.").data.head? = some 'e' := by
      rw [← h]
      rfl
    have h3 : ("Error: " ++ t ++ " expected.").data.head? = some 'E' := by
      rw [String.data_append, String.data_append]
      rfl
    rw [h2] at h3
    simp at h3

/-- Witness for C4: the three failure characterizations at concrete
states, with the hypotheses discharged by computation. -/
theorem claim4_witness :
    read ⟨'x', [], 0, [], [], Counts.zero, 1, [], []⟩ =
      .err ⟨'x', [], 0, [], [], Counts.zero, 1, [], []⟩ .inputExhausted
        "expected another character"
    ∧ match_ 'e' ⟨'u', ['a'], 0, [], [], Counts.zero, 1, [], []⟩ =
      .err ⟨'u', ['a'], 0, [], [], Counts.zero, 1, [], []⟩ .unexpectedChar
        (expectedMsg (String.singleton 'e'))
    ∧ get_name ⟨'=', ['a'], 0, [], [], Counts.zero, 1, [], []⟩ =
      .err ⟨'=', ['a'], 0, [], [], Counts.zero, 1, [], []⟩ .invalidName
        (expectedMsg "Name") :=
  ⟨claim4_fatal_diagnostics.1 _ rfl,
   claim4_fatal_diagnostics.2.1 _ 'e' (by decide),
   claim4_fatal_diagnostics.2.2.1 _ (by decide)⟩

/-- C7: after any statement production completes normally, the stream
position has advanced without skipping: the lookahead together with the
unread input is a contiguous suffix of what they were before the
statement (so the lookahead holds exactly the first unconsumed
character, there being no whitespace handling); and a block returns
normally only with a terminator character `e`, `l`, or `u` still
unconsumed in the lookahead, having likewise skipped nothing. -/
theorem claim7_lookahead_discipline :
    (∀ (k : StKind) (fuel : Nat) (s : St) (u : Unit) (s1 : St),
      runStmt k fuel s = .ok u s1 →
      ∃ pre, s.look :: s.input = pre ++ s1.look :: s1.input)
    ∧ (∀ (fuel : Nat) (s : St) (u : Unit) (s1 : St), block fuel s = .ok u s1 →
        (s1.look = 'e' ∨ s1.look = 'l' ∨ s1.look = 'u')
        ∧ ∃ pre, s.look :: s.input = pre ++ s1.look :: s1.input) := by
  constructor
  · intro k fuel s u s1 h
    have hs := (stepOK_runStmt k fuel s).stream
    rw [h] at hs
    exact hs
  · intro fuel s u s1 h
    refine ⟨block_ok_look fuel s u s1 h, ?_⟩
    have hs := (stepOK_block fuel s).stream
    rw [h] at hs
    exact hs

/-- Witness for C7: a bare-identifier statement on the concrete state
with lookahead `a` and remaining input `e`, and the enclosing block
terminating on the unconsumed `e`. -/
theorem claim7_witness :
    (∃ pre, 'a' :: ['e'] =
      pre ++ (runStmt .sOther 1 ⟨'a', ['e'], 0, [], [], Counts.zero, 1, [], []⟩).st.look
        :: (runStmt .sOther 1 ⟨'a', ['e'], 0, [], [], Counts.zero, 1, [], []⟩).st.input)
    ∧ ((block 2 ⟨'a', ['e'], 0, [], [], Counts.zero, 1, [], []⟩).st.look = 'e'
        ∨ (block 2 ⟨'a', ['e'], 0, [], [], Counts.zero, 1, [], []⟩).st.look = 'l'
        ∨ (block 2 ⟨'a', ['e'], 0, [], [], Counts.zero, 1, [], []⟩).st.look = 'u') :=
  ⟨claim7_lookahead_discipline.1 .sOther 1
     ⟨'a', ['e'], 0, [], [], Counts.zero, 1, [], []⟩ ()
     (runStmt .sOther 1 ⟨'a', ['e'], 0, [], [], Counts.zero, 1, [], []⟩).st rfl,
   (claim7_lookahead_discipline.2 2
     ⟨'a', ['e'], 0, [], [], Counts.zero, 1, [], []⟩ ()
     (block 2 ⟨'a', ['e'], 0, [], [], Counts.zero, 1, [], []⟩).st rfl).1⟩

/-- C8: a `match_` failure aborts on the spot — the error carries exactly
the state at the failure, so the failing production emits nothing further
— and the output already written before any statement failure is
preserved as a prefix, never retracted; concretely, on the input "iau"
the run fails at the if-statement terminator check with everything
emitted before the failure (and nothing after it, in particular not the
exit label) still in the output. -/
theorem claim8_no_retraction :
    (∀ (c : Char) (s : St), s.look ≠ c →
      match_ c s = .err s .unexpectedChar (expectedMsg (String.singleton c)))
    ∧ (∀ (k : StKind) (fuel : Nat) (s s1 : St) (ek : ErrKind) (m : String),
        runStmt k fuel s = .err s1 ek m → ∃ t, s1.out = s.out ++ t)
    ∧ runProgram "iau".toList =
        .err (runProgram "iau".toList).st .unexpectedChar
          (expectedMsg (String.singleton 'e'))
    ∧ (runProgram "iau".toList).st.out = "\t<condition>\n\tJZ L0\n\tA\n".toList := by
  refine ⟨?_, ?_, rfl, rfl⟩
  · intro c s h
    simp [match_, h]
  · intro k fuel s s1 ek m h
    have hs := (stepOK_runStmt k fuel s).outExt
    rw [h] at hs
    exact hs

/-- Witness for C8: the two universal parts at concrete states — a
mismatching `match_`, and the failing if-statement of "iau" run as a
statement. -/
theorem claim8_witness :
    match_ 'e' ⟨'u', [], 0, [], [], Counts.zero, 1, [], []⟩ =
      .err ⟨'u', [], 0, [], [], Counts.zero, 1, [], []⟩ .unexpectedChar
        (expectedMsg (String.singleton 'e'))
    ∧ ∃ t, (runStmt .sIf 2 ⟨'i', "au".toList, 0, [], [], Counts.zero, 1, [], []⟩).st.out
        = [] ++ t :=
  ⟨claim8_no_retraction.1 'e' ⟨'u', [], 0, [], [], Counts.zero, 1, [], []⟩ (by decide),
   claim8_no_retraction.2.1 .sIf 2
     ⟨'i', "au".toList, 0, [], [], Counts.zero, 1, [], []⟩
     (runStmt .sIf 2 ⟨'i', "au".toList, 0, [], [], Counts.zero, 1, [], []⟩).st
     .unexpectedChar (expectedMsg (String.singleton 'e')) rfl⟩

/-- A successful `match_` leaves output, label counter, tallies and
trace untouched. -/
theorem match_ok_fields {c : Char} {s : St} {u : Unit} {s1 : St}
    (h : match_ c s = .ok u s1) :
    s1.out = s.out ∧ s1.labels = s.labels := by
  unfold match_ read at h
  split at h
  · split at h
    · exact PR.noConfusion h
    · injection h with h1 h2
      rw [← h2]
      exact ⟨rfl, rfl⟩
  · exact PR.noConfusion h

/-- A successful `get_name_for` leaves output and label counter
untouched. -/
theorem get_name_for_ok_fields {s : St} {name : Char} {s1 : St}
    (h : get_name_for s = .ok name s1) :
    s1.out = s.out ∧ s1.labels = s.labels := by
  unfold get_name_for get_name read at h
  split at h
  · split at h
    · exact PR.noConfusion h
    · simp only [PR.bind] at h
      injection h with h1 h2
      rw [← h2]
      exact ⟨rfl, rfl⟩
  · exact PR.noConfusion h

/-- The output of a successful block extends the output at its start. -/
theorem block_ok_out {fuel : Nat} {x : St} {u : Unit} {s1 : St}
    (h : block fuel x = .ok u s1) : ∃ t, s1.out = x.out ++ t := by
  have hx := (stepOK_block fuel x).outExt
  rw [h] at hx
  exact hx

/-- C2: whenever a for-statement is parsed to completion, its emitted
code is, in order: `PUSH EBX`; the placeholder load of the name; the
start-expression placeholder; `MOV EBX, EAX`; the end-expression
placeholder; `SUB EAX, EBX`; `JO label2`; the placeholder store of the
accumulator to the name; the definition of `label1` with no trailing
newline; the body block's output; the placeholder decrement of the name;
`JNZ label1`; the definition of `label2` with no trailing newline; and
`POP EBX` — where `label1` is the label numbered with the counter at
entry and `label2` the next one, so label1 is allocated before label2
and both are fresh. -/
theorem claim2_for_emission (fuel : Nat) (s s' : St)
    (h : for_ fuel s = .ok () s') :
    ∃ (name : Char) (bodyOut : List Char),
      s'.out = s.out
        ++ "\tPUSH EBX\n".toList
        ++ ('\t' :: ("<somehow load " ++ String.singleton name ++ ">").toList ++ ['\n'])
        ++ "\t<expression>\n".toList
        ++ "\tMOV EBX, EAX\n".toList
        ++ "\t<expression>\n".toList
        ++ "\tSUB EAX, EBX\n".toList
        ++ ('\t' :: ("JO " ++ labelName (s.labels + 1)).toList ++ ['\n'])
        ++ ('\t' :: ("<somehow store EAX to " ++ String.singleton name ++ ">").toList
            ++ ['\n'])
        ++ ('\t' :: (labelName s.labels ++ ":").toList)
        ++ bodyOut
        ++ ('\t' :: ("<somehow SUB " ++ String.singleton name ++ ", 1>").toList ++ ['\n'])
        ++ ('\t' :: ("JNZ " ++ labelName s.labels).toList ++ ['\n'])
        ++ ('\t' :: (labelName (s.labels + 1) ++ ":").toList)
        ++ "\tPOP EBX\n".toList := by
  unfold for_ for_aux at h
  try dsimp only at h
  obtain ⟨u1, s1, hm1, h⟩ := PR.bind_ok_inv h
  try dsimp only at h
  obtain ⟨name, s2, hg, h⟩ := PR.bind_ok_inv h
  try dsimp only at h
  obtain ⟨u2, s3, hm2, h⟩ := PR.bind_ok_inv h
  try dsimp only at h
  obtain ⟨u3, s4, hblk, h⟩ := PR.bind_ok_inv h
  try dsimp only at h
  obtain ⟨u4, s5, hm3, h⟩ := PR.bind_ok_inv h
  try dsimp only at h
  injection h with h1 h2
  obtain ⟨ho1, hl1⟩ := match_ok_fields hm1
  obtain ⟨ho2, hl2⟩ := get_name_for_ok_fields hg
  obtain ⟨ho3, hl3⟩ := match_ok_fields hm2
  obtain ⟨ho5, hl5⟩ := match_ok_fields hm3
  obtain ⟨bodyOut, hb⟩ := block_ok_out hblk
  refine ⟨name, bodyOut, ?_⟩
  subst h2
  simp only [emitln, emit, post_label, new_label, tally, expression, condition]
    at ho1 ho2 ho3 ho5 hl1 hl2 hl3 hb ⊢
  rw [ho5, hb, ho3, ho2, ho1, hl1]
  simp [List.append_assoc]

/-- Witness for C2: the concrete for-statement "fa=be" (name `a`, empty
placeholder expressions, body the bare identifier `b`), run with one
trailing character so the terminator read succeeds. -/
theorem claim2_witness :
    ∃ (name : Char) (bodyOut : List Char),
      (for_ 2 ⟨'f', "a=bex".toList, 0, [], [], Counts.zero, 1, [], []⟩).st.out =
        ([] : List Char)
        ++ "\tPUSH EBX\n".toList
        ++ ('\t' :: ("<somehow load " ++ String.singleton name ++ ">").toList ++ ['\n'])
        ++ "\t<expression>\n".toList
        ++ "\tMOV EBX, EAX\n".toList
        ++ "\t<expression>\n".toList
        ++ "\tSUB EAX, EBX\n".toList
        ++ ('\t' :: ("JO " ++ labelName (0 + 1)).toList ++ ['\n'])
        ++ ('\t' :: ("<somehow store EAX to " ++ String.singleton name ++ ">").toList
            ++ ['\n'])
        ++ ('\t' :: (labelName 0 ++ ":").toList)
        ++ bodyOut
        ++ ('\t' :: ("<somehow SUB " ++ String.singleton name ++ ", 1>").toList ++ ['\n'])
        ++ ('\t' :: ("JNZ " ++ labelName 0).toList ++ ['\n'])
        ++ ('\t' :: (labelName (0 + 1) ++ ":").toList)
        ++ "\tPOP EBX\n".toList :=
  claim2_for_emission 2 ⟨'f', "a=bex".toList, 0, [], [], Counts.zero, 1, [], []⟩
    (for_ 2 ⟨'f', "a=bex".toList, 0, [], [], Counts.zero, 1, [], []⟩).st rfl

/-!
### Termination

The fuel of the embedding replaces the unbounded statement-dispatch loop
of `block`.  Fuel exceeding the unread input length is never exhausted:
every statement production that completes normally consumes at least one
character (its keyword, terminator, or name), each loop iteration of
`block` that does not return runs one statement, and advancing past the
end of the input is itself a fatal error rather than a blocked state.
-/

theorem PR.bind_assoc {α β γ : Type} (r : PR α) (f : α → St → PR β)
    (g : β → St → PR γ) :
    (r.bind f).bind g = r.bind (fun a s => (f a s).bind g) := by
  cases r <;> rfl

theorem read_noFuelOut (s : St) : (read s).isFuelOut = false := by
  unfold read
  cases s.input <;> rfl

theorem match_noFuelOut (c : Char) (s : St) : (match_ c s).isFuelOut = false := by
  unfold match_
  split
  · exact read_noFuelOut s
  · rfl

theorem get_name_for_noFuelOut (s : St) : (get_name_for s).isFuelOut = false := by
  unfold get_name_for get_name read
  split
  · cases s.input <;> rfl
  · rfl

theorem get_name_other_noFuelOut (s : St) : (get_name_other s).isFuelOut = false := by
  unfold get_name_other get_name read
  split
  · cases s.input <;> rfl
  · rfl

theorem read_ok_len {s : St} {u : Unit} {s1 : St} (h : read s = .ok u s1) :
    s1.input.length + 1 = s.input.length := by
  unfold read at h
  split at h
  · exact PR.noConfusion h
  · rename_i c rest heq
    injection h with h1 h2
    rw [← h2, heq]
    rfl

theorem match_ok_len {c : Char} {s : St} {u : Unit} {s1 : St}
    (h : match_ c s = .ok u s1) : s1.input.length + 1 = s.input.length := by
  unfold match_ at h
  split at h
  · exact read_ok_len h
  · exact PR.noConfusion h

theorem get_name_for_ok_len {s : St} {name : Char} {s1 : St}
    (h : get_name_for s = .ok name s1) : s1.input.length + 1 = s.input.length := by
  unfold get_name_for get_name read at h
  split at h
  · split at h
    · exact PR.noConfusion h
    · rename_i c rest heq
      simp only [PR.bind] at h
      injection h with h1 h2
      rw [← h2, heq]
      rfl
  · exact PR.noConfusion h

theorem fuelBindF {α β : Type} {r : PR α} {F : α → St → PR β}
    (hr : r.isFuelOut = false)
    (hF : ∀ a s1, r = .ok a s1 → (F a s1).isFuelOut = false) :
    (r.bind F).isFuelOut = false := by
  cases r with
  | ok a s1 => exact hF a s1 rfl
  | err s k m => rfl
  | fuelOut s => exact absurd hr (by simp [PR.isFuelOut])

/-- A successful block does not lengthen the unread input. -/
theorem block_ok_len {fuel : Nat} {x : St} {u : Unit} {s1 : St}
    (h : block fuel x = .ok u s1) : s1.input.length ≤ x.input.length := by
  have hx := (stepOK_block fuel x).stream
  rw [h] at hx
  simp only [PR.st] at hx
  obtain ⟨pre, hp⟩ := hx
  have := congrArg List.length hp
  simp only [List.length_cons, List.length_append] at this
  omega

/-- A completed if-statement consumes at least one character. -/
theorem len_if_aux {blk : St → PR Unit}
    (hlen : ∀ (x : St) (u : Unit) s1, blk x = .ok u s1 →
      s1.input.length ≤ x.input.length)
    (x : St) (u : Unit) (s' : St) (h : if_aux blk x = .ok u s') :
    s'.input.length < x.input.length := by
  unfold if_aux at h
  obtain ⟨u1, s1, hm1, h⟩ := PR.bind_ok_inv h
  try dsimp only at h
  obtain ⟨u2, s2, hb1, h⟩ := PR.bind_ok_inv h
  obtain ⟨label2, s3, hITE, h⟩ := PR.bind_ok_inv h
  obtain ⟨u3, s4, hm3, h⟩ := PR.bind_ok_inv h
  have hL1 := match_ok_len hm1
  have hL2 := hlen _ _ _ hb1
  simp only [emitln, emit, condition, new_label, tally] at hL2
  have hL4 := match_ok_len hm3
  injection h with h1 h2
  have hout : s'.input.length = s4.input.length := by
    rw [← h2]
    rfl
  have hL3 : s3.input.length ≤ s2.input.length := by
    split at hITE
    · obtain ⟨u4, s5, hm2, hITE⟩ := PR.bind_ok_inv hITE
      try dsimp only at hITE
      obtain ⟨u5, s6, hb2, hITE⟩ := PR.bind_ok_inv hITE
      have hL5 := match_ok_len hm2
      have hL6 := hlen _ _ _ hb2
      simp only [emitln, emit, post_label, new_label, tally] at hL6
      injection hITE with g1 g2
      have : s3.input.length = s6.input.length := by rw [← g2]
      omega
    · injection hITE with g1 g2
      rw [← g2]
  omega

/-- A completed while-statement consumes at least one character. -/
theorem len_while_aux {blk : St → PR Unit}
    (hlen : ∀ (x : St) (u : Unit) s1, blk x = .ok u s1 →
      s1.input.length ≤ x.input.length)
    (x : St) (u : Unit) (s' : St) (h : while_aux blk x = .ok u s') :
    s'.input.length < x.input.length := by
  unfold while_aux at h
  obtain ⟨u1, s1, hm1, h⟩ := PR.bind_ok_inv h
  try dsimp only at h
  obtain ⟨u2, s2, hb1, h⟩ := PR.bind_ok_inv h
  obtain ⟨u3, s3, hm2, h⟩ := PR.bind_ok_inv h
  have hL1 := match_ok_len hm1
  have hL2 := hlen _ _ _ hb1
  simp only [emitln, emit, post_label, condition, new_label, tally] at hL2
  have hL3 := match_ok_len hm2
  injection h with h1 h2
  have hout : s'.input.length = s3.input.length := by
    rw [← h2]
    rfl
  omega

/-- A completed loop-statement consumes at least one character. -/
theorem len_loop_aux {blk : St → PR Unit}
    (hlen : ∀ (x : St) (u : Unit) s1, blk x = .ok u s1 →
      s1.input.length ≤ x.input.length)
    (x : St) (u : Unit) (s' : St) (h : loop_aux blk x = .ok u s') :
    s'.input.length < x.input.length := by
  unfold loop_aux at h
  obtain ⟨u1, s1, hm1, h⟩ := PR.bind_ok_inv h
  try dsimp only at h
  obtain ⟨u2, s2, hb1, h⟩ := PR.bind_ok_inv h
  obtain ⟨u3, s3, hm2, h⟩ := PR.bind_ok_inv h
  have hL1 := match_ok_len hm1
  have hL2 := hlen _ _ _ hb1
  simp only [emitln, emit, post_label, new_label, tally] at hL2
  have hL3 := match_ok_len hm2
  injection h with h1 h2
  have hout : s'.input.length = s3.input.length := by
    rw [← h2]
    rfl
  omega

/-- A completed repeat-statement consumes at least one character. -/
theorem len_repeat_aux {blk : St → PR Unit}
    (hlen : ∀ (x : St) (u : Unit) s1, blk x = .ok u s1 →
      s1.input.length ≤ x.input.length)
    (x : St) (u : Unit) (s' : St) (h : repeat_aux blk x = .ok u s') :
    s'.input.length < x.input.length := by
  unfold repeat_aux at h
  obtain ⟨u1, s1, hm1, h⟩ := PR.bind_ok_inv h
  try dsimp only at h
  obtain ⟨u2, s2, hb1, h⟩ := PR.bind_ok_inv h
  obtain ⟨u3, s3, hm2, h⟩ := PR.bind_ok_inv h
  have hL1 := match_ok_len hm1
  have hL2 := hlen _ _ _ hb1
  simp only [emitln, emit, post_label, new_label, tally] at hL2
  have hL3 := match_ok_len hm2
  injection h with h1 h2
  have hout : s'.input.length = s3.input.length := by
    rw [← h2]
    rfl
  omega

/-- A completed for-statement consumes at least one character. -/
theorem len_for_aux {blk : St → PR Unit}
    (hlen : ∀ (x : St) (u : Unit) s1, blk x = .ok u s1 →
      s1.input.length ≤ x.input.length)
    (x : St) (u : Unit) (s' : St) (h : for_aux blk x = .ok u s') :
    s'.input.length < x.input.length := by
  unfold for_aux at h
  try dsimp only at h
  obtain ⟨u1, s1, hm1, h⟩ := PR.bind_ok_inv h
  try dsimp only at h
  obtain ⟨name, s2, hg, h⟩ := PR.bind_ok_inv h
  obtain ⟨u2, s3, hm2, h⟩ := PR.bind_ok_inv h
  try dsimp only at h
  obtain ⟨u3, s4, hb1, h⟩ := PR.bind_ok_inv h
  obtain ⟨u4, s5, hm3, h⟩ := PR.bind_ok_inv h
  have hL1 := match_ok_len hm1
  simp only [emitln, emit] at hL1
  have hL2 := get_name_for_ok_len hg
  simp only [new_label, tally] at hL2
  have hL3 := match_ok_len hm2
  have hL4 := hlen _ _ _ hb1
  simp only [emitln, emit, post_label, expression, new_label, tally] at hL4
  have hL5 := match_ok_len hm3
  injection h with h1 h2
  have hout : s'.input.length = s5.input.length := by
    rw [← h2]
    rfl
  omega

/-- A completed do-statement consumes at least one character. -/
theorem len_do_aux {blk : St → PR Unit}
    (hlen : ∀ (x : St) (u : Unit) s1, blk x = .ok u s1 →
      s1.input.length ≤ x.input.length)
    (x : St) (u : Unit) (s' : St) (h : do_aux blk x = .ok u s') :
    s'.input.length < x.input.length := by
  unfold do_aux at h
  obtain ⟨u1, s1, hm1, h⟩ := PR.bind_ok_inv h
  try dsimp only at h
  obtain ⟨u2, s2, hb1, h⟩ := PR.bind_ok_inv h
  obtain ⟨u3, s3, hm2, h⟩ := PR.bind_ok_inv h
  have hL1 := match_ok_len hm1
  have hL2 := hlen _ _ _ hb1
  simp only [emitln, emit, post_label, expression, new_label, tally] at hL2
  have hL3 := match_ok_len hm2
  simp only [emitln, emit] at hL3
  injection h with h1 h2
  have hout : s'.input.length = s3.input.length := by
    rw [← h2]
  omega

/-- A completed bare-identifier statement consumes one character. -/
theorem len_other (x : St) (u : Unit) (s' : St) (h : other x = .ok u s') :
    s'.input.length < x.input.length := by
  unfold other get_name_other get_name read at h
  split at h
  · split at h
    · exact PR.noConfusion h
    · rename_i c rest heq
      simp only [PR.bind] at h
      injection h with h1 h2
      have : s'.input.length = rest.length := by
        rw [← h2]
        rfl
      rw [heq]
      simp only [List.length_cons]
      omega
  · exact PR.noConfusion h

theorem fuel_if_aux {blk : St → PR Unit} {n : Nat}
    (hfuel : ∀ y : St, y.input.length < n → (blk y).isFuelOut = false)
    (hlen : ∀ (y : St) (u : Unit) s1, blk y = .ok u s1 →
      s1.input.length ≤ y.input.length)
    (x : St) (hx : x.input.length ≤ n) :
    (if_aux blk x).isFuelOut = false := by
  unfold if_aux
  refine fuelBindF (match_noFuelOut 'i' x) ?_
  intro u1 s1 hm1
  have hL1 := match_ok_len hm1
  try dsimp only
  refine fuelBindF (hfuel _ ?_) ?_
  · simp only [emitln, emit, condition, new_label, tally]
    omega
  intro u2 s2 hb1
  have hL2 := hlen _ _ _ hb1
  simp only [emitln, emit, condition, new_label, tally] at hL2
  refine fuelBindF ?_ ?_
  · split
    · refine fuelBindF (match_noFuelOut 'l' s2) ?_
      intro u3 s3 hm2
      have hL3 := match_ok_len hm2
      try dsimp only
      refine fuelBindF (hfuel _ ?_) ?_
      · simp only [emitln, emit, post_label, new_label, tally]
        omega
      intro u4 s4 hb2
      rfl
    · rfl
  intro label2 s5 hITE
  refine fuelBindF (match_noFuelOut 'e' s5) ?_
  intro u5 s6 hm3
  rfl

theorem fuel_while_aux {blk : St → PR Unit} {n : Nat}
    (hfuel : ∀ y : St, y.input.length < n → (blk y).isFuelOut = false)
    (x : St) (hx : x.input.length ≤ n) :
    (while_aux blk x).isFuelOut = false := by
  unfold while_aux
  refine fuelBindF (match_noFuelOut 'w' x) ?_
  intro u1 s1 hm1
  have hL1 := match_ok_len hm1
  try dsimp only
  refine fuelBindF (hfuel _ ?_) ?_
  · simp only [emitln, emit, post_label, condition, new_label, tally]
    omega
  intro u2 s2 hb1
  refine fuelBindF (match_noFuelOut 'e' s2) ?_
  intro u3 s3 hm2
  rfl

theorem fuel_loop_aux {blk : St → PR Unit} {n : Nat}
    (hfuel : ∀ y : St, y.input.length < n → (blk y).isFuelOut = false)
    (x : St) (hx : x.input.length ≤ n) :
    (loop_aux blk x).isFuelOut = false := by
  unfold loop_aux
  refine fuelBindF (match_noFuelOut 'p' x) ?_
  intro u1 s1 hm1
  have hL1 := match_ok_len hm1
  try dsimp only
  refine fuelBindF (hfuel _ ?_) ?_
  · simp only [emitln, emit, post_label, new_label, tally]
    omega
  intro u2 s2 hb1
  refine fuelBindF (match_noFuelOut 'e' s2) ?_
  intro u3 s3 hm2
  rfl

theorem fuel_repeat_aux {blk : St → PR Unit} {n : Nat}
    (hfuel : ∀ y : St, y.input.length < n → (blk y).isFuelOut = false)
    (x : St) (hx : x.input.length ≤ n) :
    (repeat_aux blk x).isFuelOut = false := by
  unfold repeat_aux
  refine fuelBindF (match_noFuelOut 'r' x) ?_
  intro u1 s1 hm1
  have hL1 := match_ok_len hm1
  try dsimp only
  refine fuelBindF (hfuel _ ?_) ?_
  · simp only [emitln, emit, post_label, new_label, tally]
    omega
  intro u2 s2 hb1
  refine fuelBindF (match_noFuelOut 'u' s2) ?_
  intro u3 s3 hm2
  rfl

theorem fuel_for_aux {blk : St → PR Unit} {n : Nat}
    (hfuel : ∀ y : St, y.input.length < n → (blk y).isFuelOut = false)
    (x : St) (hx : x.input.length ≤ n) :
    (for_aux blk x).isFuelOut = false := by
  unfold for_aux
  try dsimp only
  refine fuelBindF (match_noFuelOut 'f' _) ?_
  intro u1 s1 hm1
  have hL1 := match_ok_len hm1
  simp only [emitln, emit] at hL1
  try dsimp only
  refine fuelBindF (get_name_for_noFuelOut _) ?_
  intro name s2 hg
  have hL2 := get_name_for_ok_len hg
  simp only [new_label, tally] at hL2
  refine fuelBindF (match_noFuelOut '=' s2) ?_
  intro u2 s3 hm2
  have hL3 := match_ok_len hm2
  try dsimp only
  refine fuelBindF (hfuel _ ?_) ?_
  · simp only [emitln, emit, post_label, expression, new_label, tally]
    omega
  intro u3 s4 hb1
  refine fuelBindF (match_noFuelOut 'e' s4) ?_
  intro u4 s5 hm3
  rfl

theorem fuel_do_aux {blk : St → PR Unit} {n : Nat}
    (hfuel : ∀ y : St, y.input.length < n → (blk y).isFuelOut = false)
    (x : St) (hx : x.input.length ≤ n) :
    (do_aux blk x).isFuelOut = false := by
  unfold do_aux
  refine fuelBindF (match_noFuelOut 'd' x) ?_
  intro u1 s1 hm1
  have hL1 := match_ok_len hm1
  try dsimp only
  refine fuelBindF (hfuel _ ?_) ?_
  · simp only [emitln, emit, post_label, expression, new_label, tally]
    omega
  intro u2 s2 hb1
  refine fuelBindF (match_noFuelOut 'e' _) ?_
  intro u3 s3 hm2
  rfl

theorem fuel_other (x : St) : (other x).isFuelOut = false := by
  unfold other
  refine fuelBindF (get_name_other_noFuelOut x) ?_
  intro name s1 hg
  rfl

/-- Fuel exceeding the unread input length is never exhausted by a
block. -/
theorem block_noFuelOut : ∀ (fuel : Nat) (x : St), x.input.length < fuel →
    (block fuel x).isFuelOut = false := by
  intro fuel
  induction fuel with
  | zero => intro x hx; exact absurd hx (Nat.not_lt_zero _)
  | succ fuel ih =>
    intro x hx
    have hlen : ∀ (y : St) (u : Unit) s1, block fuel y = .ok u s1 →
        s1.input.length ≤ y.input.length := fun y u s1 h => block_ok_len h
    unfold block
    split
    · refine fuelBindF (fuel_if_aux ih hlen x (by omega)) ?_
      intro u s1 hok
      have := len_if_aux hlen x u s1 hok
      exact ih s1 (by omega)
    split
    · refine fuelBindF (fuel_while_aux ih x (by omega)) ?_
      intro u s1 hok
      have := len_while_aux hlen x u s1 hok
      exact ih s1 (by omega)
    split
    · refine fuelBindF (fuel_loop_aux ih x (by omega)) ?_
      intro u s1 hok
      have := len_loop_aux hlen x u s1 hok
      exact ih s1 (by omega)
    split
    · refine fuelBindF (fuel_repeat_aux ih x (by omega)) ?_
      intro u s1 hok
      have := len_repeat_aux hlen x u s1 hok
      exact ih s1 (by omega)
    split
    · refine fuelBindF (fuel_for_aux ih x (by omega)) ?_
      intro u s1 hok
      have := len_for_aux hlen x u s1 hok
      exact ih s1 (by omega)
    split
    · refine fuelBindF (fuel_do_aux ih x (by omega)) ?_
      intro u s1 hok
      have := len_do_aux hlen x u s1 hok
      exact ih s1 (by omega)
    split
    · rfl
    split
    · rfl
    split
    · rfl
    refine fuelBindF (fuel_other x) ?_
    intro u s1 hok
    have := len_other x u s1 hok
    exact ih s1 (by omega)

/-- C10: on every finite input the whole run terminates, either normally
or with a fatal error — the fuel of the embedding, one unit per
dispatch-loop iteration, is never exhausted when it exceeds the input
length, because every statement that completes consumes at least one
character and running off the end of the input is itself a fatal
error. -/
theorem claim10_termination (inp : List Char) :
    (∃ s1 : St, runProgram inp = .ok () s1)
    ∨ (∃ (s1 : St) (k : ErrKind) (m : String), runProgram inp = .err s1 k m) := by
  have hNF : (runProgram inp).isFuelOut = false := by
    unfold runProgram init
    refine fuelBindF (read_noFuelOut _) ?_
    intro u s1 hr
    have hL := read_ok_len hr
    simp only [initSt] at hL
    unfold program
    refine fuelBindF (block_noFuelOut _ s1 (by omega)) ?_
    intro u2 s2 hb
    split <;> rfl
  cases hres : runProgram inp with
  | ok a s1 =>
    left
    cases a
    exact ⟨s1, rfl⟩
  | err s1 k m =>
    right
    exact ⟨s1, k, m, rfl⟩
  | fuelOut s1 =>
    rw [hres] at hNF
    exact absurd hNF (by simp [PR.isFuelOut])

/-!
### Case-toggling a name character (C9)

We compare the run on an input `I` with the run on `I.set i c'`, where
the character `c` at index `i` is consumed by `get_name` in the first
run and `c'` is the same letter in the opposite case.  The two runs are
related by a three-phase lockstep relation `PhasePair`: before the
differing index reaches the lookahead the states agree except for that
one unread character; while it sits in the lookahead the states agree
except for the lookahead itself; after it is consumed the states agree.
Runs leave lockstep only by making the global hypothesis of the claim
false — the first run dies, or consumes index `i` by something other
than `get_name` (so `i` is never ghost-recorded), or records `i` at a
bare-identifier dispatch while the replacement is a structural
character; `Dead` captures those escapes.
-/

theorem asciiIsUpper_of_alpha_not_lower {c : Char}
    (h : asciiIsAlpha c = true) (hl : asciiIsLower c = false) :
    asciiIsUpper c = true := by
  unfold asciiIsAlpha at h
  rcases (Bool.or_eq_true _ _).mp h with h1 | h1
  · rw [h1] at hl
    exact Bool.noConfusion hl
  · exact h1

theorem asciiIsAlpha_swapCase {c : Char} (h : asciiIsAlpha c = true) :
    asciiIsAlpha (swapCase c) = true := by
  by_cases hl : asciiIsLower c = true
  · have : swapCase c = asciiToUpper c := by simp [swapCase, hl]
    rw [this]
    unfold asciiIsLower at hl
    split at hl
    all_goals first
      | decide
      | exact Bool.noConfusion hl
  · have hu := asciiIsUpper_of_alpha_not_lower h (Bool.not_eq_true _ ▸ eq_false_of_ne_true hl)
    have : swapCase c = asciiToLower c := by
      simp [swapCase, eq_false_of_ne_true hl, hu]
    rw [this]
    unfold asciiIsUpper at hu
    split at hu
    all_goals first
      | decide
      | exact Bool.noConfusion hu

theorem asciiToUpper_swapCase {c : Char} (h : asciiIsAlpha c = true) :
    asciiToUpper (swapCase c) = asciiToUpper c := by
  by_cases hl : asciiIsLower c = true
  · have : swapCase c = asciiToUpper c := by simp [swapCase, hl]
    rw [this]
    unfold asciiIsLower at hl
    split at hl
    all_goals first
      | decide
      | exact Bool.noConfusion hl
  · have hu := asciiIsUpper_of_alpha_not_lower h (Bool.not_eq_true _ ▸ eq_false_of_ne_true hl)
    have : swapCase c = asciiToLower c := by
      simp [swapCase, eq_false_of_ne_true hl, hu]
    rw [this]
    unfold asciiIsUpper at hu
    split at hu
    all_goals first
      | decide
      | exact Bool.noConfusion hu

theorem ne_of_reservedChar_false {c x : Char} (h : reservedChar c = false)
    (hx : reservedChar x = true) : c ≠ x := by
  intro he
  rw [he, hx] at h
  exact Bool.noConfusion h

/-- The ghost record of all indices consumed by `get_name`. -/
def reads (s : St) : List Nat :=
  s.otherReads ++ s.forReads

/-- The equal-fields part of the lockstep relation: everything except
the lookahead and the unread input. -/
def baseEq (s t : St) : Prop :=
  t.labels = s.labels ∧ t.out = s.out ∧ t.trace = s.trace ∧ t.counts = s.counts
  ∧ t.pos = s.pos ∧ t.otherReads = s.otherReads ∧ t.forReads = s.forReads

/-- Three-phase lockstep relation between the run on `I` and the run on
`I.set i c'`: the differing index is ahead (phase A), in the lookahead
(phase B), or already consumed (phase C). -/
def PhasePair (I : List Char) (i : Nat) (c c' : Char) (s t : St) : Prop :=
  baseEq s t ∧ ReadsBound s ∧ 1 ≤ s.pos ∧
  ((s.pos ≤ i ∧ t.look = s.look ∧ s.input = I.drop s.pos
      ∧ t.input = (I.set i c').drop s.pos)
    ∨ (s.pos = i + 1 ∧ s.look = c ∧ t.look = c' ∧ t.input = s.input)
    ∨ (t.look = s.look ∧ t.input = s.input))

/-- Paired results: same outcome, same produced values and diagnostics,
states still in lockstep. -/
def PairRes {α : Type} (I : List Char) (i : Nat) (c c' : Char) :
    PR α → PR α → Prop
  | .ok a s, .ok b t => a = b ∧ PhasePair I i c c' s t
  | .err s k m, .err t k2 m2 => k2 = k ∧ m2 = m ∧ PhasePair I i c c' s t
  | .fuelOut s, .fuelOut t => PhasePair I i c c' s t
  | _, _ => False

/-- The first run can no longer ghost-record index `i`: it has failed,
or the position is already two past `i`, or it returned normally with a
block terminator in the lookahead at position `i + 1` (from which every
continuation consumes by `match_`, never by `get_name`). -/
def DRes {α : Type} (i : Nat) (r : PR α) : Prop :=
  i ∉ reads r.st
  ∧ (r.isOk = false ∨ i + 2 ≤ r.st.pos
      ∨ (r.st.pos = i + 1
        ∧ (r.st.look = 'e' ∨ r.st.look = 'l' ∨ r.st.look = 'u')))

/-- The escape cases of the simulation: the first run can never record
`i` (`DRes`), or it recorded `i` at a bare-identifier dispatch although
the replacement character is structural. -/
def Dead {α : Type} (i : Nat) (c' : Char) (r : PR α) : Prop :=
  DRes i r ∨ (i ∈ r.st.otherReads ∧ reservedChar c' = true)

/-- The conclusion of every simulation step: results still paired, or
the first run has escaped in a hypothesis-refuting way. -/
def Sim {α : Type} (I : List Char) (i : Nat) (c c' : Char)
    (r1 r2 : PR α) : Prop :=
  PairRes I i c c' r1 r2 ∨ Dead i c' r1

/-- Like `DRes`, but the normal-return escape is only the
already-consumed one (position two past `i`): the shape of every
`match_`-led escape. -/
def DResC {α : Type} (i : Nat) (r : PR α) : Prop :=
  i ∉ reads r.st ∧ (r.isOk = false ∨ i + 2 ≤ r.st.pos)

/-- `Sim` with the stronger consumed-only escape. -/
def SimC {α : Type} (I : List Char) (i : Nat) (c c' : Char)
    (r1 r2 : PR α) : Prop :=
  PairRes I i c c' r1 r2 ∨ (DResC i r1 ∨ (i ∈ r1.st.otherReads ∧ reservedChar c' = true))

/-- Once the position is two past `i` with `i` unrecorded, no step can
record it: later `get_name` records are at later positions. -/
theorem dead_of_stepOK {β : Type} {i : Nat} {s1 : St} {r : PR β}
    (h1 : i ∉ reads s1) (h2 : i + 2 ≤ s1.pos) (hstep : StepOK s1 r) :
    DRes i r := by
  refine ⟨?_, Or.inr (Or.inl (Nat.le_trans h2 hstep.posMono))⟩
  intro hmem
  rcases hstep.readsNew i (by simpa [reads] using hmem) with hmem1 | hmem1
  · exact h1 (by simpa [reads] using hmem1)
  · omega

theorem DRes.bindDRes {α β : Type} {i : Nat} {r : PR α} {f : α → St → PR β}
    (h : DRes i r)
    (hstep : ∀ a s1, StepOK s1 (f a s1))
    (helu : ∀ a s1, r = .ok a s1 → i ∉ reads s1 → s1.pos = i + 1 →
      (s1.look = 'e' ∨ s1.look = 'l' ∨ s1.look = 'u') → DRes i (f a s1)) :
    DRes i (r.bind f) := by
  cases r with
  | ok a s1 =>
    obtain ⟨h1, h2⟩ := h
    rcases h2 with h2 | h2 | h2
    · exact absurd h2 (by simp [PR.isOk])
    · exact dead_of_stepOK h1 h2 (hstep a s1)
    · exact helu a s1 rfl h1 h2.1 h2.2
  | err s1 k m => exact h
  | fuelOut s1 => exact h

theorem Dead.bindDead {α β : Type} {i : Nat} {c' : Char} {r : PR α}
    {f : α → St → PR β}
    (h : Dead i c' r)
    (hstep : ∀ a s1, StepOK s1 (f a s1))
    (helu : ∀ a s1, r = .ok a s1 → i ∉ reads s1 → s1.pos = i + 1 →
      (s1.look = 'e' ∨ s1.look = 'l' ∨ s1.look = 'u') → DRes i (f a s1)) :
    Dead i c' (r.bind f) := by
  rcases h with h | h
  · exact Or.inl (DRes.bindDRes h hstep helu)
  · cases r with
    | ok a s1 => exact Or.inr ⟨(hstep a s1).otherMono i h.1, h.2⟩
    | err s1 k m => exact Or.inr h
    | fuelOut s1 => exact Or.inr h

theorem SimC.bindSimC {α β : Type} {I : List Char} {i : Nat} {c c' : Char}
    {r1 r2 : PR α} {f g : α → St → PR β}
    (h : SimC I i c c' r1 r2)
    (hstep : ∀ a s1, StepOK s1 (f a s1))
    (hok : ∀ a s1 t1, r1 = .ok a s1 → r2 = .ok a t1 → PhasePair I i c c' s1 t1 →
      Sim I i c c' (f a s1) (g a t1)) :
    Sim I i c c' (r1.bind f) (r2.bind g) := by
  rcases h with hp | hd | hd
  · cases r1 with
    | ok a s1 =>
      cases r2 with
      | ok b t1 =>
        obtain ⟨hab, hpp⟩ := hp
        cases hab
        exact hok a s1 t1 rfl rfl hpp
      | err t1 k m => exact hp.elim
      | fuelOut t1 => exact hp.elim
    | err s1 k m =>
      cases r2 with
      | ok b t1 => exact hp.elim
      | err t1 k2 m2 => exact Or.inl hp
      | fuelOut t1 => exact hp.elim
    | fuelOut s1 =>
      cases r2 with
      | ok b t1 => exact hp.elim
      | err t1 k2 m2 => exact hp.elim
      | fuelOut t1 => exact Or.inl hp
  · obtain ⟨h1, h2⟩ := hd
    cases r1 with
    | ok a s1 =>
      rcases h2 with h2 | h2
      · exact absurd h2 (by simp [PR.isOk])
      · exact Or.inr (Or.inl (dead_of_stepOK h1 h2 (hstep a s1)))
    | err s1 k m => exact Or.inr (Or.inl ⟨h1, Or.inl rfl⟩)
    | fuelOut s1 => exact Or.inr (Or.inl ⟨h1, Or.inl rfl⟩)
  · cases r1 with
    | ok a s1 => exact Or.inr (Or.inr ⟨(hstep a s1).otherMono i hd.1, hd.2⟩)
    | err s1 k m => exact Or.inr (Or.inr hd)
    | fuelOut s1 => exact Or.inr (Or.inr hd)

theorem PairRes.bindPair {α β : Type} {I : List Char} {i : Nat} {c c' : Char}
    {r1 r2 : PR α} {f g : α → St → PR β}
    (hp : PairRes I i c c' r1 r2)
    (hok : ∀ a s1 t1, r1 = .ok a s1 → r2 = .ok a t1 → PhasePair I i c c' s1 t1 →
      Sim I i c c' (f a s1) (g a t1)) :
    Sim I i c c' (r1.bind f) (r2.bind g) := by
  cases r1 with
  | ok a s1 =>
    cases r2 with
    | ok b t1 =>
      obtain ⟨hab, hpp⟩ := hp
      cases hab
      exact hok a s1 t1 rfl rfl hpp
    | err t1 k m => exact hp.elim
    | fuelOut t1 => exact hp.elim
  | err s1 k m =>
    cases r2 with
    | ok b t1 => exact hp.elim
    | err t1 k2 m2 => exact Or.inl hp
    | fuelOut t1 => exact hp.elim
  | fuelOut s1 =>
    cases r2 with
    | ok b t1 => exact hp.elim
    | err t1 k2 m2 => exact hp.elim
    | fuelOut t1 => exact Or.inl hp

theorem Sim.bindSim {α β : Type} {I : List Char} {i : Nat} {c c' : Char}
    {r1 r2 : PR α} {f g : α → St → PR β}
    (h : Sim I i c c' r1 r2)
    (hstep : ∀ a s1, StepOK s1 (f a s1))
    (hok : ∀ a s1 t1, r1 = .ok a s1 → r2 = .ok a t1 → PhasePair I i c c' s1 t1 →
      Sim I i c c' (f a s1) (g a t1))
    (helu : ∀ a s1, r1 = .ok a s1 → i ∉ reads s1 → s1.pos = i + 1 →
      (s1.look = 'e' ∨ s1.look = 'l' ∨ s1.look = 'u') → DRes i (f a s1)) :
    Sim I i c c' (r1.bind f) (r2.bind g) := by
  rcases h with hp | hd
  · cases r1 with
    | ok a s1 =>
      cases r2 with
      | ok b t1 =>
        obtain ⟨hab, hpp⟩ := hp
        cases hab
        exact hok a s1 t1 rfl rfl hpp
      | err t1 k m => exact hp.elim
      | fuelOut t1 => exact hp.elim
    | err s1 k m =>
      cases r2 with
      | ok b t1 => exact hp.elim
      | err t1 k2 m2 => exact Or.inl hp
      | fuelOut t1 => exact hp.elim
    | fuelOut s1 =>
      cases r2 with
      | ok b t1 => exact hp.elim
      | err t1 k2 m2 => exact hp.elim
      | fuelOut t1 => exact Or.inl hp
  · exact Or.inr (Dead.bindDead hd hstep helu)

/-- From a state at position `i + 1` with `i` unrecorded, a `match_`
either consumes the lookahead (moving two past `i`) or fails; either way
`i` can never be recorded. -/
theorem match_dead_at {i : Nat} (x : Char) {s1 : St}
    (h1 : i ∉ reads s1) (h2 : s1.pos = i + 1) :
    DResC i (match_ x s1) := by
  unfold match_ read
  by_cases hl : s1.look = x
  · simp only [hl, if_true]
    rcases hin : s1.input with _ | ⟨ch, rest⟩
    · exact ⟨h1, Or.inl rfl⟩
    · refine ⟨?_, Or.inr ?_⟩
      · simpa [reads] using h1
      · simp only [PR.st]
        omega
  · simp only [hl, if_false]
    exact ⟨h1, Or.inl rfl⟩

theorem DResC.toDRes {α : Type} {i : Nat} {r : PR α} (h : DResC i r) :
    DRes i r :=
  ⟨h.1, h.2.elim Or.inl (fun h2 => Or.inr (Or.inl h2))⟩

/-- A block started on a terminator lookahead at position `i + 1`
returns at once, keeping `i` unrecordable. -/
theorem block_elu_dead (fuel : Nat) {i : Nat} {s1 : St} (h1 : i ∉ reads s1)
    (h2 : s1.pos = i + 1)
    (h3 : s1.look = 'e' ∨ s1.look = 'l' ∨ s1.look = 'u') :
    DRes i (block fuel s1) := by
  cases fuel with
  | zero => exact ⟨h1, Or.inl rfl⟩
  | succ fuel =>
    unfold block
    rcases h3 with h3 | h3 | h3 <;>
      simp only [h3] <;>
      exact ⟨h1, Or.inr (Or.inr ⟨h2, by simp [PR.st, h3]⟩)⟩

theorem drop_set_succ (I : List Char) (i : Nat) (a : Char) :
    (I.set i a).drop (i + 1) = I.drop (i + 1) := by
  apply List.ext_getElem?
  intro n
  rw [List.getElem?_drop, List.getElem?_drop]
  exact List.getElem?_set_ne (by omega)

/-- In phase B the index `i` is not yet recorded. -/
theorem notin_reads_of_posB {i : Nat} {s : St} (hrb : ReadsBound s)
    (hpi : s.pos = i + 1) : i ∉ reads s := by
  intro hmem
  have := hrb i (by simpa [reads] using hmem)
  omega

/-- `read` keeps the two runs paired in every phase. -/
theorem read_sim {I : List Char} {i : Nat} {c c' : Char}
    (hi : i < I.length) (hc : I[i]? = some c)
    {s t : St} (hp : PhasePair I i c c' s t) :
    PairRes I i c c' (read s) (read t) := by
  obtain ⟨⟨e1, e2, e3, e4, e5, e6, e7⟩, hrb, hp1, hph⟩ := hp
  rcases hph with ⟨hpi, hlk, hsi, hti⟩ | ⟨hpi, hlc, htc, hti⟩ | ⟨hlk, hti⟩
  · -- phase A
    have hlenp : s.pos < I.length := by omega
    have hlen2 : s.pos < (I.set i c').length := by
      rw [List.length_set]
      omega
    have hsd : I.drop s.pos = I[s.pos] :: I.drop (s.pos + 1) :=
      (List.getElem_cons_drop I s.pos hlenp).symm
    have htd : (I.set i c').drop s.pos
        = (I.set i c')[s.pos] :: (I.set i c').drop (s.pos + 1) :=
      (List.getElem_cons_drop _ s.pos hlen2).symm
    unfold read
    rw [hsi, hsd, hti, htd]
    by_cases hpi2 : s.pos = i
    · -- the differing character enters the lookahead: phase B
      obtain ⟨hxlt, hxv⟩ := List.getElem?_eq_some.mp hc
      have hv1 : I[s.pos] = c := by
        subst hpi2
        exact hxv
      have hv2 : (I.set i c')[s.pos] = c' := by
        subst hpi2
        have h4 : (I.set s.pos c')[s.pos]? = some c' :=
          List.getElem?_set_eq_of_lt c' hi
        obtain ⟨hy, hyv⟩ := List.getElem?_eq_some.mp h4
        exact hyv
      have htl : (I.set i c').drop (s.pos + 1) = I.drop (s.pos + 1) := by
        rw [hpi2]
        exact drop_set_succ I i c'
      refine ⟨rfl, ⟨⟨by simp [e1], by simp [e2], by simp [e3], by simp [e4],
        by simp [e5], by simp [e6], by simp [e7]⟩, ?_, by simp, ?_⟩⟩
      · intro v hv
        simp only at hv ⊢
        have := hrb v (by simpa [reads] using hv)
        omega
      · right
        left
        refine ⟨by simp; omega, by simp [hv1], by simp [hv2], by simp [htl]⟩
    · -- the differing character is still ahead: phase A again
      have hne : i ≠ s.pos := fun he => hpi2 he.symm
      have hv : (I.set i c')[s.pos] = I[s.pos] := by
        obtain ⟨hy, hyv⟩ := List.getElem?_eq_some.mp
          ((List.getElem?_set_ne hne (a := c') (l := I)).trans
            (List.getElem?_eq_getElem hlenp))
        exact hyv
      refine ⟨rfl, ⟨⟨by simp [e1], by simp [e2], by simp [e3], by simp [e4],
        by simp [e5], by simp [e6], by simp [e7]⟩, ?_, by simp, ?_⟩⟩
      · intro v hv
        simp only at hv ⊢
        have := hrb v (by simpa [reads] using hv)
        omega
      · left
        refine ⟨by simp; omega, by simp [hv], by simp, by simp⟩
  · -- phase B: both streams agree beyond the lookahead
    unfold read
    rw [hti]
    rcases hd : s.input with _ | ⟨ch, rest⟩
    · exact ⟨rfl, rfl, ⟨⟨e1, e2, e3, e4, e5, e6, e7⟩, hrb, hp1,
        Or.inr (Or.inl ⟨hpi, hlc, htc, hti⟩)⟩⟩
    · refine ⟨rfl, ⟨⟨by simp [e1], by simp [e2], by simp [e3], by simp [e4],
        by simp [e5], by simp [e6], by simp [e7]⟩, ?_, by simp, ?_⟩⟩
      · intro v hv
        simp only at hv ⊢
        have := hrb v (by simpa [reads] using hv)
        omega
      · right
        right
        exact ⟨by simp, by simp⟩
  · -- phase C: identical streams
    unfold read
    rw [hti]
    rcases hd : s.input with _ | ⟨ch, rest⟩
    · exact ⟨rfl, rfl, ⟨⟨e1, e2, e3, e4, e5, e6, e7⟩, hrb, hp1,
        Or.inr (Or.inr ⟨hlk, hti⟩)⟩⟩
    · refine ⟨rfl, ⟨⟨by simp [e1], by simp [e2], by simp [e3], by simp [e4],
        by simp [e5], by simp [e6], by simp [e7]⟩, ?_, by simp, ?_⟩⟩
      · intro v hv
        simp only at hv ⊢
        have := hrb v (by simpa [reads] using hv)
        omega
      · right
        right
        exact ⟨by simp, by simp⟩

theorem read_ok_pos {s : St} {u : Unit} {s1 : St} (h : read s = .ok u s1) :
    s1.pos = s.pos + 1 := by
  unfold read at h
  split at h
  · exact PR.noConfusion h
  · injection h with h1 h2
    rw [← h2]

theorem match_ok_pos {x : Char} {s : St} {u : Unit} {s1 : St}
    (h : match_ x s = .ok u s1) : s1.pos = s.pos + 1 := by
  unfold match_ at h
  split at h
  · exact read_ok_pos h
  · exact PR.noConfusion h

/-- `match_` keeps the runs paired while the lookaheads agree, and makes
the first run unrecordable when they differ (phase B). -/
theorem match_sim {I : List Char} {i : Nat} {c c' : Char} (x : Char)
    (hi : i < I.length) (hc : I[i]? = some c)
    {s t : St} (hp : PhasePair I i c c' s t) :
    SimC I i c c' (match_ x s) (match_ x t) := by
  rcases hph : hp.2.2.2 with ⟨hpi, hlk, hsi, hti⟩ | ⟨hpi, hlc, htc, hti⟩ | ⟨hlk, hti⟩
  · unfold match_
    rw [hlk]
    by_cases hx : s.look = x
    · simp only [hx, if_true]
      exact Or.inl (read_sim hi hc hp)
    · simp only [hx, if_false]
      exact Or.inl ⟨rfl, rfl, hp⟩
  · exact Or.inr (Or.inl (match_dead_at x (notin_reads_of_posB hp.2.1 hpi) hpi))
  · unfold match_
    rw [hlk]
    by_cases hx : s.look = x
    · simp only [hx, if_true]
      exact Or.inl (read_sim hi hc hp)
    · simp only [hx, if_false]
      exact Or.inl ⟨rfl, rfl, hp⟩

/-- A pure emission/ghost-tally step: it leaves the lookahead, the
unread input, the position and the read records untouched. -/
structure PureKeep (g : St → St) : Prop where
  look : ∀ s, (g s).look = s.look
  input : ∀ s, (g s).input = s.input
  pos : ∀ s, (g s).pos = s.pos
  other : ∀ s, (g s).otherReads = s.otherReads
  fr : ∀ s, (g s).forReads = s.forReads

/-- Applying pure steps with base-equal effects on the two sides keeps
the runs paired. -/
theorem phasePair_map2 {I : List Char} {i : Nat} {c c' : Char} {g h : St → St}
    (kg : PureKeep g) (kh : PureKeep h)
    (hbase : ∀ s t, baseEq s t → baseEq (g s) (h t))
    {s t : St} (hp : PhasePair I i c c' s t) :
    PhasePair I i c c' (g s) (h t) := by
  obtain ⟨hb, hrb, hp1, hph⟩ := hp
  refine ⟨hbase s t hb, ?_, ?_, ?_⟩
  · intro v hv
    rw [kg.pos]
    refine hrb v ?_
    rw [kg.other, kg.fr] at hv
    exact hv
  · rw [kg.pos]
    exact hp1
  · rcases hph with ⟨hpi, hlk, hsi, hti⟩ | ⟨hpi, hlc, htc, hti⟩ | ⟨hlk, hti⟩
    · exact Or.inl ⟨by rw [kg.pos]; exact hpi,
        by rw [kg.look, kh.look]; exact hlk,
        by rw [kg.input, kg.pos]; exact hsi,
        by rw [kh.input, kg.pos]; exact hti⟩
    · exact Or.inr (Or.inl ⟨by rw [kg.pos]; exact hpi,
        by rw [kg.look]; exact hlc,
        by rw [kh.look]; exact htc,
        by rw [kh.input, kg.input]; exact hti⟩)
    · exact Or.inr (Or.inr ⟨by rw [kg.look, kh.look]; exact hlk,
        by rw [kh.input, kg.input]; exact hti⟩)

/-- Recording the consumed index in `forReads` on both sides keeps the
runs paired. -/
theorem phasePair_record_for {I : List Char} {i : Nat} {c c' : Char}
    {s1 t1 : St} (hpp : PhasePair I i c c' s1 t1) (h2 : 2 ≤ s1.pos) :
    PhasePair I i c c' { s1 with forReads := s1.forReads ++ [s1.pos - 2] }
      { t1 with forReads := t1.forReads ++ [t1.pos - 2] } := by
  obtain ⟨⟨e1, e2, e3, e4, e5, e6, e7⟩, hrb, hp1, hph⟩ := hpp
  refine ⟨⟨by simp [e1], by simp [e2], by simp [e3], by simp [e4],
    by simp [e5], by simp [e6], by simp [e5, e7]⟩, ?_, by simpa using hp1, ?_⟩
  · intro v hv
    simp only [List.mem_append, List.mem_singleton] at hv
    simp only
    rcases hv with hv | hv | hv
    · have := hrb v (by simp [reads, hv])
      omega
    · have := hrb v (by simp [reads, hv])
      omega
    · omega
  · rcases hph with ⟨hpi, hlk, hsi, hti⟩ | ⟨hpi, hlc, htc, hti⟩ | ⟨hlk, hti⟩
    · exact Or.inl ⟨by simpa using hpi, by simpa using hlk,
        by simpa using hsi, by simpa using hti⟩
    · exact Or.inr (Or.inl ⟨by simpa using hpi, by simpa using hlc,
        by simpa using htc, by simpa using hti⟩)
    · exact Or.inr (Or.inr ⟨by simpa using hlk, by simpa using hti⟩)

/-- Recording the consumed index in `otherReads` on both sides keeps the
runs paired. -/
theorem phasePair_record_other {I : List Char} {i : Nat} {c c' : Char}
    {s1 t1 : St} (hpp : PhasePair I i c c' s1 t1) (h2 : 2 ≤ s1.pos) :
    PhasePair I i c c' { s1 with otherReads := s1.otherReads ++ [s1.pos - 2] }
      { t1 with otherReads := t1.otherReads ++ [t1.pos - 2] } := by
  obtain ⟨⟨e1, e2, e3, e4, e5, e6, e7⟩, hrb, hp1, hph⟩ := hpp
  refine ⟨⟨by simp [e1], by simp [e2], by simp [e3], by simp [e4],
    by simp [e5], by simp [e5, e6], by simp [e7]⟩, ?_, by simpa using hp1, ?_⟩
  · intro v hv
    simp only [List.mem_append, List.mem_singleton] at hv
    simp only
    rcases hv with (hv | hv) | hv
    · have := hrb v (by simp [reads, hv])
      omega
    · omega
    · have := hrb v (by simp [reads, hv])
      omega
  · rcases hph with ⟨hpi, hlk, hsi, hti⟩ | ⟨hpi, hlc, htc, hti⟩ | ⟨hlk, hti⟩
    · exact Or.inl ⟨by simpa using hpi, by simpa using hlk,
        by simpa using hsi, by simpa using hti⟩
    · exact Or.inr (Or.inl ⟨by simpa using hpi, by simpa using hlc,
        by simpa using htc, by simpa using hti⟩)
    · exact Or.inr (Or.inr ⟨by simpa using hlk, by simpa using hti⟩)

/-- Core of the `get_name` simulations: a paired `read` followed by
equal returned values and a pairing-preserving ghost record. -/
theorem gname_core {I : List Char} {i : Nat} {c c' : Char}
    {v1 v2 : Char} (hv : v2 = v1) {g : St → St}
    (hg : ∀ s1 t1, PhasePair I i c c' s1 t1 → 2 ≤ s1.pos →
      PhasePair I i c c' (g s1) (g t1))
    {s t : St} (hp1s : 1 ≤ s.pos)
    (hrs : PairRes I i c c' (read s) (read t)) :
    PairRes I i c c'
      (((read s).bind fun _ s1 => .ok v1 s1).bind fun name s1 => .ok name (g s1))
      (((read t).bind fun _ s1 => .ok v2 s1).bind fun name s1 => .ok name (g s1)) := by
  cases hq1 : read s with
  | ok u1 s1 =>
    rw [hq1] at hrs
    cases hq2 : read t with
    | ok u2 t1 =>
      rw [hq2] at hrs
      obtain ⟨hu, hpp⟩ := hrs
      simp only [PR.bind]
      have hpos1 := read_ok_pos hq1
      exact ⟨hv.symm, hg s1 t1 hpp (by omega)⟩
    | err t1 k m => rw [hq2] at hrs; exact hrs.elim
    | fuelOut t1 => rw [hq2] at hrs; exact hrs.elim
  | err s1 k m =>
    rw [hq1] at hrs
    cases hq2 : read t with
    | ok u2 t1 => rw [hq2] at hrs; exact hrs.elim
    | err t1 k2 m2 =>
      rw [hq2] at hrs
      exact hrs
    | fuelOut t1 => rw [hq2] at hrs; exact hrs.elim
  | fuelOut s1 =>
    rw [hq1] at hrs
    cases hq2 : read t with
    | ok u2 t1 => rw [hq2] at hrs; exact hrs.elim
    | err t1 k2 m2 => rw [hq2] at hrs; exact hrs.elim
    | fuelOut t1 =>
      rw [hq2] at hrs
      exact hrs

/-- `get_name_for` keeps the two runs paired in every phase: in phase B
both lookaheads are the same letter in opposite cases, both alphabetic,
both uppercased to the same name, and the index is ghost-recorded in
`forReads` identically on both sides. -/
theorem get_name_for_sim {I : List Char} {i : Nat} {c c' : Char}
    (hi : i < I.length) (hc : I[i]? = some c)
    (halpha : asciiIsAlpha c = true) (hswap : c' = swapCase c)
    {s t : St} (hp : PhasePair I i c c' s t) :
    PairRes I i c c' (get_name_for s) (get_name_for t) := by
  have hrs := @read_sim I i c c' hi hc _ _ hp
  have hrecp : ∀ s1 t1 : St, PhasePair I i c c' s1 t1 → 2 ≤ s1.pos →
      PhasePair I i c c' { s1 with forReads := s1.forReads ++ [s1.pos - 2] }
        { t1 with forReads := t1.forReads ++ [t1.pos - 2] } :=
    fun s1 t1 hpp h2 => phasePair_record_for hpp h2
  unfold get_name_for get_name
  rcases hph : hp.2.2.2 with ⟨hpi, hlk, hsi, hti⟩ | ⟨hpi, hlc, htc, hti⟩ | ⟨hlk, hti⟩
  · rw [hlk]
    by_cases ha : asciiIsAlpha s.look = true
    · simp only [ha, if_true]
      exact gname_core rfl hrecp hp.2.2.1 hrs
    · simp only [eq_false_of_ne_true ha, if_false]
      exact ⟨rfl, rfl, hp⟩
  · have halpha' : asciiIsAlpha c' = true := by
      rw [hswap]
      exact asciiIsAlpha_swapCase halpha
    have hval : asciiToUpper c' = asciiToUpper c := by
      rw [hswap]
      exact asciiToUpper_swapCase halpha
    rw [hlc, htc]
    simp only [halpha, halpha', if_true]
    exact gname_core hval hrecp hp.2.2.1 hrs
  · rw [hlk]
    by_cases ha : asciiIsAlpha s.look = true
    · simp only [ha, if_true]
      exact gname_core rfl hrecp hp.2.2.1 hrs
    · simp only [eq_false_of_ne_true ha, if_false]
      exact ⟨rfl, rfl, hp⟩

/-- `get_name_other` keeps the two runs paired in every phase, recording
the consumed index in `otherReads` identically on both sides. -/
theorem get_name_other_sim {I : List Char} {i : Nat} {c c' : Char}
    (hi : i < I.length) (hc : I[i]? = some c)
    (halpha : asciiIsAlpha c = true) (hswap : c' = swapCase c)
    {s t : St} (hp : PhasePair I i c c' s t) :
    PairRes I i c c' (get_name_other s) (get_name_other t) := by
  have hrs := @read_sim I i c c' hi hc _ _ hp
  have hrecp : ∀ s1 t1 : St, PhasePair I i c c' s1 t1 → 2 ≤ s1.pos →
      PhasePair I i c c' { s1 with otherReads := s1.otherReads ++ [s1.pos - 2] }
        { t1 with otherReads := t1.otherReads ++ [t1.pos - 2] } :=
    fun s1 t1 hpp h2 => phasePair_record_other hpp h2
  unfold get_name_other get_name
  rcases hph : hp.2.2.2 with ⟨hpi, hlk, hsi, hti⟩ | ⟨hpi, hlc, htc, hti⟩ | ⟨hlk, hti⟩
  · rw [hlk]
    by_cases ha : asciiIsAlpha s.look = true
    · simp only [ha, if_true]
      exact gname_core rfl hrecp hp.2.2.1 hrs
    · simp only [eq_false_of_ne_true ha, if_false]
      exact ⟨rfl, rfl, hp⟩
  · have halpha' : asciiIsAlpha c' = true := by
      rw [hswap]
      exact asciiIsAlpha_swapCase halpha
    have hval : asciiToUpper c' = asciiToUpper c := by
      rw [hswap]
      exact asciiToUpper_swapCase halpha
    rw [hlc, htc]
    simp only [halpha, halpha', if_true]
    exact gname_core hval hrecp hp.2.2.1 hrs
  · rw [hlk]
    by_cases ha : asciiIsAlpha s.look = true
    · simp only [ha, if_true]
      exact gname_core rfl hrecp hp.2.2.1 hrs
    · simp only [eq_false_of_ne_true ha, if_false]
      exact ⟨rfl, rfl, hp⟩

/-- From position `i + 1` with `i` unrecorded, a `match_`-led
continuation can never record `i`. -/
theorem dres_match_bind {β : Type} {i : Nat} {x : Char} {s3 : St}
    {f : Unit → St → PR β}
    (h1 : i ∉ reads s3) (hpi : s3.pos = i + 1)
    (hstep : ∀ (a : Unit) s1, StepOK s1 (f a s1)) :
    DRes i ((match_ x s3).bind f) := by
  refine DRes.bindDRes (match_dead_at x h1 hpi).toDRes hstep ?_
  intro a s1 hok h1' hpi' _
  exact absurd hpi' (by have := match_ok_pos hok; omega)

theorem sim_while_aux {I : List Char} {i : Nat} {c c' : Char}
    (hi : i < I.length) (hc : I[i]? = some c)
    {blk : St → PR Unit}
    (hblkStep : ∀ s, StepOK s (blk s))
    (hblkSim : ∀ s t, PhasePair I i c c' s t → Sim I i c c' (blk s) (blk t))
    {s t : St} (hp : PhasePair I i c c' s t) :
    Sim I i c c' (while_aux blk s) (while_aux blk t) := by
  unfold while_aux
  refine SimC.bindSimC (match_sim 'w' hi hc hp) ?_ ?_
  · intro a s1
    dsimp only
    refine StepOK.bindStep (StSt.trans (StSt.trans
      (stst_tally_alloc2 _ _ (fun cc => by simp only [weight]; omega))
      (StSt.trans (stst_post_label _ _)
        (StSt.trans (stst_condition _) (stst_emitlnApp _ _)))) (hblkStep _)) ?_
    intro _ s2 _
    refine StepOK.bindStep (stepOK_match 'e' s2) ?_
    intro _ s3 _
    exact stepOK_ok_pure _ (StSt.trans (stst_emitlnApp _ _) (stst_post_label _ _))
  · intro a s1 t1 hr1 hr2 hpp
    dsimp only
    have hpp2 := phasePair_map2
      (g := fun x => emitln
        ("JZ " ++ (new_label (new_label (tally (fun cc => { cc with cWhile := cc.cWhile + 1 }) x)).2).1)
        (condition (post_label
          (new_label (tally (fun cc => { cc with cWhile := cc.cWhile + 1 }) x)).1
          ((new_label (new_label (tally (fun cc => { cc with cWhile := cc.cWhile + 1 }) x)).2).2))))
      (h := fun x => emitln
        ("JZ " ++ (new_label (new_label (tally (fun cc => { cc with cWhile := cc.cWhile + 1 }) x)).2).1)
        (condition (post_label
          (new_label (tally (fun cc => { cc with cWhile := cc.cWhile + 1 }) x)).1
          ((new_label (new_label (tally (fun cc => { cc with cWhile := cc.cWhile + 1 }) x)).2).2))))
      (by refine ⟨?_, ?_, ?_, ?_, ?_⟩ <;> intro x <;>
        simp [emitln, emit, post_label, condition, new_label, tally])
      (by refine ⟨?_, ?_, ?_, ?_, ?_⟩ <;> intro x <;>
        simp [emitln, emit, post_label, condition, new_label, tally])
      (fun s4 t4 hb => by
        obtain ⟨f1, f2, f3, f4, f5, f6, f7⟩ := hb
        refine ⟨?_, ?_, ?_, ?_, ?_, ?_, ?_⟩ <;>
          simp [emitln, emit, post_label, condition, new_label, tally,
            f1, f2, f3, f4, f5, f6, f7])
      hpp
    refine Sim.bindSim (hblkSim _ _ hpp2) ?_ ?_ ?_
    · intro a2 s2
      refine StepOK.bindStep (stepOK_match 'e' s2) ?_
      intro _ s3 _
      exact stepOK_ok_pure _ (StSt.trans (stst_emitlnApp _ _) (stst_post_label _ _))
    · intro a2 s2 t2 _ _ hpp3
      refine SimC.bindSimC (match_sim 'e' hi hc hpp3) ?_ ?_
      · intro a3 s3
        exact stepOK_ok_pure _ (StSt.trans (stst_emitlnApp _ _) (stst_post_label _ _))
      · intro a3 s3 t3 _ _ hpp4
        refine Or.inl ⟨rfl, ?_⟩
        have e1 : t1.labels = s1.labels := hpp.1.1
        refine phasePair_map2
          (g := fun x => post_label
            (new_label (new_label (tally (fun cc => { cc with cWhile := cc.cWhile + 1 }) s1)).2).1
            (emitln ("JMP " ++ (new_label (tally (fun cc => { cc with cWhile := cc.cWhile + 1 }) s1)).1) x))
          (h := fun x => post_label
            (new_label (new_label (tally (fun cc => { cc with cWhile := cc.cWhile + 1 }) t1)).2).1
            (emitln ("JMP " ++ (new_label (tally (fun cc => { cc with cWhile := cc.cWhile + 1 }) t1)).1) x))
          (by refine ⟨?_, ?_, ?_, ?_, ?_⟩ <;> intro x <;>
            simp [emitln, emit, post_label, new_label, tally])
          (by refine ⟨?_, ?_, ?_, ?_, ?_⟩ <;> intro x <;>
            simp [emitln, emit, post_label, new_label, tally])
          (fun s4 t4 hb => by
            obtain ⟨f1, f2, f3, f4, f5, f6, f7⟩ := hb
            refine ⟨?_, ?_, ?_, ?_, ?_, ?_, ?_⟩ <;>
              simp [emitln, emit, post_label, new_label, tally, e1,
                f1, f2, f3, f4, f5, f6, f7])
          hpp4
    · intro a2 s2 _ h1' hpi' _
      refine dres_match_bind h1' hpi' ?_
      intro a3 s3
      exact stepOK_ok_pure _ (StSt.trans (stst_emitlnApp _ _) (stst_post_label _ _))


theorem sim_loop_aux {I : List Char} {i : Nat} {c c' : Char}
    (hi : i < I.length) (hc : I[i]? = some c)
    {blk : St → PR Unit}
    (hblkStep : ∀ s, StepOK s (blk s))
    (hblkSim : ∀ s t, PhasePair I i c c' s t → Sim I i c c' (blk s) (blk t))
    {s t : St} (hp : PhasePair I i c c' s t) :
    Sim I i c c' (loop_aux blk s) (loop_aux blk t) := by
  unfold loop_aux
  refine SimC.bindSimC (match_sim 'p' hi hc hp) ?_ ?_
  · intro a s1
    dsimp only
    refine StepOK.bindStep (StSt.trans (StSt.trans
      (stst_tally_alloc1 _ _ (fun cc => by simp only [weight]; omega))
      (stst_post_label _ _)) (hblkStep _)) ?_
    intro _ s2 _
    refine StepOK.bindStep (stepOK_match 'e' s2) ?_
    intro _ s3 _
    exact stepOK_ok_pure _ (stst_emitlnApp _ _)
  · intro a s1 t1 _ _ hpp
    dsimp only
    have hpp2 := phasePair_map2
      (g := fun x => post_label
        (new_label (tally (fun cc => { cc with cLoop := cc.cLoop + 1 }) x)).1
        ((new_label (tally (fun cc => { cc with cLoop := cc.cLoop + 1 }) x)).2))
      (h := fun x => post_label
        (new_label (tally (fun cc => { cc with cLoop := cc.cLoop + 1 }) x)).1
        ((new_label (tally (fun cc => { cc with cLoop := cc.cLoop + 1 }) x)).2))
      (by refine ⟨?_, ?_, ?_, ?_, ?_⟩ <;> intro x <;>
        simp [emitln, emit, post_label, new_label, tally])
      (by refine ⟨?_, ?_, ?_, ?_, ?_⟩ <;> intro x <;>
        simp [emitln, emit, post_label, new_label, tally])
      (fun s4 t4 hb => by
        obtain ⟨f1, f2, f3, f4, f5, f6, f7⟩ := hb
        refine ⟨?_, ?_, ?_, ?_, ?_, ?_, ?_⟩ <;>
          simp [emitln, emit, post_label, new_label, tally,
            f1, f2, f3, f4, f5, f6, f7])
      hpp
    refine Sim.bindSim (hblkSim _ _ hpp2) ?_ ?_ ?_
    · intro a2 s2
      refine StepOK.bindStep (stepOK_match 'e' s2) ?_
      intro _ s3 _
      exact stepOK_ok_pure _ (stst_emitlnApp _ _)
    · intro a2 s2 t2 _ _ hpp3
      refine SimC.bindSimC (match_sim 'e' hi hc hpp3) ?_ ?_
      · intro a3 s3
        exact stepOK_ok_pure _ (stst_emitlnApp _ _)
      · intro a3 s3 t3 _ _ hpp4
        refine Or.inl ⟨rfl, ?_⟩
        have e1 : t1.labels = s1.labels := hpp.1.1
        refine phasePair_map2
          (g := fun x => emitln
            ("JMP " ++ (new_label (tally (fun cc => { cc with cLoop := cc.cLoop + 1 }) s1)).1) x)
          (h := fun x => emitln
            ("JMP " ++ (new_label (tally (fun cc => { cc with cLoop := cc.cLoop + 1 }) t1)).1) x)
          (by refine ⟨?_, ?_, ?_, ?_, ?_⟩ <;> intro x <;> simp [emitln])
          (by refine ⟨?_, ?_, ?_, ?_, ?_⟩ <;> intro x <;> simp [emitln])
          (fun s4 t4 hb => by
            obtain ⟨f1, f2, f3, f4, f5, f6, f7⟩ := hb
            refine ⟨?_, ?_, ?_, ?_, ?_, ?_, ?_⟩ <;>
              simp [emitln, emit, new_label, tally, e1,
                f1, f2, f3, f4, f5, f6, f7])
          hpp4
    · intro a2 s2 _ h1' hpi' _
      refine dres_match_bind h1' hpi' ?_
      intro a3 s3
      exact stepOK_ok_pure _ (stst_emitlnApp _ _)

theorem sim_repeat_aux {I : List Char} {i : Nat} {c c' : Char}
    (hi : i < I.length) (hc : I[i]? = some c)
    {blk : St → PR Unit}
    (hblkStep : ∀ s, StepOK s (blk s))
    (hblkSim : ∀ s t, PhasePair I i c c' s t → Sim I i c c' (blk s) (blk t))
    {s t : St} (hp : PhasePair I i c c' s t) :
    Sim I i c c' (repeat_aux blk s) (repeat_aux blk t) := by
  unfold repeat_aux
  refine SimC.bindSimC (match_sim 'r' hi hc hp) ?_ ?_
  · intro a s1
    dsimp only
    refine StepOK.bindStep (StSt.trans (StSt.trans
      (stst_tally_alloc1 _ _ (fun cc => by simp only [weight]; omega))
      (stst_post_label _ _)) (hblkStep _)) ?_
    intro _ s2 _
    refine StepOK.bindStep (stepOK_match 'u' s2) ?_
    intro _ s3 _
    exact stepOK_ok_pure _ (StSt.trans (stst_condition _) (stst_emitlnApp _ _))
  · intro a s1 t1 _ _ hpp
    dsimp only
    have hpp2 := phasePair_map2
      (g := fun x => post_label
        (new_label (tally (fun cc => { cc with cRepeat := cc.cRepeat + 1 }) x)).1
        ((new_label (tally (fun cc => { cc with cRepeat := cc.cRepeat + 1 }) x)).2))
      (h := fun x => post_label
        (new_label (tally (fun cc => { cc with cRepeat := cc.cRepeat + 1 }) x)).1
        ((new_label (tally (fun cc => { cc with cRepeat := cc.cRepeat + 1 }) x)).2))
      (by refine ⟨?_, ?_, ?_, ?_, ?_⟩ <;> intro x <;>
        simp [emitln, emit, post_label, new_label, tally])
      (by refine ⟨?_, ?_, ?_, ?_, ?_⟩ <;> intro x <;>
        simp [emitln, emit, post_label, new_label, tally])
      (fun s4 t4 hb => by
        obtain ⟨f1, f2, f3, f4, f5, f6, f7⟩ := hb
        refine ⟨?_, ?_, ?_, ?_, ?_, ?_, ?_⟩ <;>
          simp [emitln, emit, post_label, new_label, tally,
            f1, f2, f3, f4, f5, f6, f7])
      hpp
    refine Sim.bindSim (hblkSim _ _ hpp2) ?_ ?_ ?_
    · intro a2 s2
      refine StepOK.bindStep (stepOK_match 'u' s2) ?_
      intro _ s3 _
      exact stepOK_ok_pure _ (StSt.trans (stst_condition _) (stst_emitlnApp _ _))
    · intro a2 s2 t2 _ _ hpp3
      refine SimC.bindSimC (match_sim 'u' hi hc hpp3) ?_ ?_
      · intro a3 s3
        exact stepOK_ok_pure _ (StSt.trans (stst_condition _) (stst_emitlnApp _ _))
      · intro a3 s3 t3 _ _ hpp4
        refine Or.inl ⟨rfl, ?_⟩
        have e1 : t1.labels = s1.labels := hpp.1.1
        refine phasePair_map2
          (g := fun x => emitln
            ("JZ " ++ (new_label (tally (fun cc => { cc with cRepeat := cc.cRepeat + 1 }) s1)).1)
            (condition x))
          (h := fun x => emitln
            ("JZ " ++ (new_label (tally (fun cc => { cc with cRepeat := cc.cRepeat + 1 }) t1)).1)
            (condition x))
          (by refine ⟨?_, ?_, ?_, ?_, ?_⟩ <;> intro x <;> simp [emitln, condition])
          (by refine ⟨?_, ?_, ?_, ?_, ?_⟩ <;> intro x <;> simp [emitln, condition])
          (fun s4 t4 hb => by
            obtain ⟨f1, f2, f3, f4, f5, f6, f7⟩ := hb
            refine ⟨?_, ?_, ?_, ?_, ?_, ?_, ?_⟩ <;>
              simp [emitln, emit, condition, new_label, tally, e1,
                f1, f2, f3, f4, f5, f6, f7])
          hpp4
    · intro a2 s2 _ h1' hpi' _
      refine dres_match_bind h1' hpi' ?_
      intro a3 s3
      exact stepOK_ok_pure _ (StSt.trans (stst_condition _) (stst_emitlnApp _ _))

theorem sim_do_aux {I : List Char} {i : Nat} {c c' : Char}
    (hi : i < I.length) (hc : I[i]? = some c)
    {blk : St → PR Unit}
    (hblkStep : ∀ s, StepOK s (blk s))
    (hblkSim : ∀ s t, PhasePair I i c c' s t → Sim I i c c' (blk s) (blk t))
    {s t : St} (hp : PhasePair I i c c' s t) :
    Sim I i c c' (do_aux blk s) (do_aux blk t) := by
  unfold do_aux
  refine SimC.bindSimC (match_sim 'd' hi hc hp) ?_ ?_
  · intro a s1
    dsimp only
    refine StepOK.bindStep (StSt.trans (StSt.trans
      (stst_tally_alloc1 _ _ (fun cc => by simp only [weight]; omega))
      (StSt.trans (stst_expression _) (StSt.trans (stst_emitlnApp _ _)
        (stst_post_label _ _)))) (hblkStep _)) ?_
    intro _ s2 _
    refine StepOK.bindStep (StSt.trans (stst_emitlnApp _ _) (stepOK_match 'e' _)) ?_
    intro _ s3 _
    exact stepOK_ok_pure _ (StSt.refl s3)
  · intro a s1 t1 _ _ hpp
    dsimp only
    have hpp2 := phasePair_map2
      (g := fun x => post_label
        (new_label (tally (fun cc => { cc with cDo := cc.cDo + 1 }) x)).1
        (emitln "MOV ECX, EAX" (expression
          ((new_label (tally (fun cc => { cc with cDo := cc.cDo + 1 }) x)).2))))
      (h := fun x => post_label
        (new_label (tally (fun cc => { cc with cDo := cc.cDo + 1 }) x)).1
        (emitln "MOV ECX, EAX" (expression
          ((new_label (tally (fun cc => { cc with cDo := cc.cDo + 1 }) x)).2))))
      (by refine ⟨?_, ?_, ?_, ?_, ?_⟩ <;> intro x <;>
        simp [emitln, emit, post_label, expression, new_label, tally])
      (by refine ⟨?_, ?_, ?_, ?_, ?_⟩ <;> intro x <;>
        simp [emitln, emit, post_label, expression, new_label, tally])
      (fun s4 t4 hb => by
        obtain ⟨f1, f2, f3, f4, f5, f6, f7⟩ := hb
        refine ⟨?_, ?_, ?_, ?_, ?_, ?_, ?_⟩ <;>
          simp [emitln, emit, post_label, expression, new_label, tally,
            f1, f2, f3, f4, f5, f6, f7])
      hpp
    refine Sim.bindSim (hblkSim _ _ hpp2) ?_ ?_ ?_
    · intro a2 s2
      refine StepOK.bindStep (StSt.trans (stst_emitlnApp _ _) (stepOK_match 'e' _)) ?_
      intro _ s3 _
      exact stepOK_ok_pure _ (StSt.refl s3)
    · intro a2 s2 t2 _ _ hpp3
      dsimp only
      have e1 : t1.labels = s1.labels := hpp.1.1
      have hpp3b := phasePair_map2
        (g := fun x => emitln
          ("LOOP " ++ (new_label (tally (fun cc => { cc with cDo := cc.cDo + 1 }) s1)).1) x)
        (h := fun x => emitln
          ("LOOP " ++ (new_label (tally (fun cc => { cc with cDo := cc.cDo + 1 }) t1)).1) x)
        (by refine ⟨?_, ?_, ?_, ?_, ?_⟩ <;> intro x <;> simp [emitln])
        (by refine ⟨?_, ?_, ?_, ?_, ?_⟩ <;> intro x <;> simp [emitln])
        (fun s4 t4 hb => by
          obtain ⟨f1, f2, f3, f4, f5, f6, f7⟩ := hb
          refine ⟨?_, ?_, ?_, ?_, ?_, ?_, ?_⟩ <;>
            simp [emitln, emit, new_label, tally, e1,
              f1, f2, f3, f4, f5, f6, f7])
        hpp3
      refine SimC.bindSimC (match_sim 'e' hi hc hpp3b) ?_ ?_
      · intro a3 s3
        exact stepOK_ok_pure _ (StSt.refl s3)
      · intro a3 s3 t3 _ _ hpp4
        exact Or.inl ⟨rfl, hpp4⟩
    · intro a2 s2 _ h1' hpi' _
      refine dres_match_bind (x := 'e')
        (by simpa [reads, emitln] using h1') (by simpa [emitln] using hpi') ?_
      intro a3 s3
      exact stepOK_ok_pure _ (StSt.refl s3)

theorem sim_other {I : List Char} {i : Nat} {c c' : Char}
    (hi : i < I.length) (hc : I[i]? = some c)
    (halpha : asciiIsAlpha c = true) (hswap : c' = swapCase c)
    {s t : St} (hp : PhasePair I i c c' s t) :
    Sim I i c c' (other s) (other t) := by
  unfold other
  refine PairRes.bindPair (get_name_other_sim hi hc halpha hswap hp) ?_
  intro name s1 t1 _ _ hpp
  refine Or.inl ⟨rfl, ?_⟩
  exact phasePair_map2
    (g := fun x => emitln (String.singleton name) x)
    (h := fun x => emitln (String.singleton name) x)
    (by refine ⟨?_, ?_, ?_, ?_, ?_⟩ <;> intro x <;> simp [emitln])
    (by refine ⟨?_, ?_, ?_, ?_, ?_⟩ <;> intro x <;> simp [emitln])
    (fun s4 t4 hb => by
      obtain ⟨f1, f2, f3, f4, f5, f6, f7⟩ := hb
      refine ⟨?_, ?_, ?_, ?_, ?_, ?_, ?_⟩ <;>
        simp [emitln, f1, f2, f3, f4, f5, f6, f7])
    hpp


theorem sim_for_aux {I : List Char} {i : Nat} {c c' : Char}
    (hi : i < I.length) (hc : I[i]? = some c)
    (halpha : asciiIsAlpha c = true) (hswap : c' = swapCase c)
    {blk : St → PR Unit}
    (hblkStep : ∀ s, StepOK s (blk s))
    (hblkSim : ∀ s t, PhasePair I i c c' s t → Sim I i c c' (blk s) (blk t))
    {s t : St} (hp : PhasePair I i c c' s t) :
    Sim I i c c' (for_aux blk s) (for_aux blk t) := by
  unfold for_aux
  dsimp only
  have hp0 := phasePair_map2
    (g := fun x => emitln "PUSH EBX" x) (h := fun x => emitln "PUSH EBX" x)
    (by refine ⟨?_, ?_, ?_, ?_, ?_⟩ <;> intro x <;> simp [emitln])
    (by refine ⟨?_, ?_, ?_, ?_, ?_⟩ <;> intro x <;> simp [emitln])
    (fun s4 t4 hb => by
      obtain ⟨f1, f2, f3, f4, f5, f6, f7⟩ := hb
      refine ⟨?_, ?_, ?_, ?_, ?_, ?_, ?_⟩ <;>
        simp [emitln, f1, f2, f3, f4, f5, f6, f7])
    hp
  refine SimC.bindSimC (match_sim 'f' hi hc hp0) ?_ ?_
  · intro a s1
    dsimp only
    refine StepOK.bindStep (StSt.trans (stst_tally_alloc2 _ _ ?_) (stepOK_get_name_for _)) ?_
    · intro cc; simp only [weight]; omega
    intro name s2 _
    refine StepOK.bindStep (stepOK_match '=' s2) ?_
    intro _ s3 _
    dsimp only
    refine StepOK.bindStep (StSt.trans (StSt.trans (stst_emitlnApp _ _)
      (StSt.trans (stst_expression _) (StSt.trans (stst_emitlnApp _ _)
      (StSt.trans (stst_expression _) (StSt.trans (stst_emitlnApp _ _)
      (StSt.trans (stst_emitlnApp _ _) (StSt.trans (stst_emitlnApp _ _)
      (stst_post_label _ _)))))))) (hblkStep _)) ?_
    intro _ s4 _
    refine StepOK.bindStep (stepOK_match 'e' s4) ?_
    intro _ s5 _
    exact stepOK_ok_pure _ (StSt.trans (stst_emitlnApp _ _)
      (StSt.trans (stst_emitlnApp _ _) (StSt.trans (stst_post_label _ _) (stst_emitlnApp _ _))))
  · intro a s1 t1 _ _ hpp1
    dsimp only
    have e1 : t1.labels = s1.labels := hpp1.1.1
    have hpp2 := phasePair_map2
      (g := fun x => (new_label (new_label (tally (fun cc => { cc with cFor := cc.cFor + 1 }) x)).2).2)
      (h := fun x => (new_label (new_label (tally (fun cc => { cc with cFor := cc.cFor + 1 }) x)).2).2)
      (by refine ⟨?_, ?_, ?_, ?_, ?_⟩ <;> intro x <;> simp [new_label, tally])
      (by refine ⟨?_, ?_, ?_, ?_, ?_⟩ <;> intro x <;> simp [new_label, tally])
      (fun s4 t4 hb => by
        obtain ⟨f1, f2, f3, f4, f5, f6, f7⟩ := hb
        refine ⟨?_, ?_, ?_, ?_, ?_, ?_, ?_⟩ <;>
          simp [new_label, tally, f1, f2, f3, f4, f5, f6, f7])
      hpp1
    refine PairRes.bindPair (get_name_for_sim hi hc halpha hswap hpp2) ?_
    intro name s2 t2 _ _ hpp3
    refine SimC.bindSimC (match_sim '=' hi hc hpp3) ?_ ?_
    · intro a2 s3
      dsimp only
      refine StepOK.bindStep (StSt.trans (StSt.trans (stst_emitlnApp _ _)
        (StSt.trans (stst_expression _) (StSt.trans (stst_emitlnApp _ _)
        (StSt.trans (stst_expression _) (StSt.trans (stst_emitlnApp _ _)
        (StSt.trans (stst_emitlnApp _ _) (StSt.trans (stst_emitlnApp _ _)
        (stst_post_label _ _)))))))) (hblkStep _)) ?_
      intro _ s4 _
      refine StepOK.bindStep (stepOK_match 'e' s4) ?_
      intro _ s5 _
      exact stepOK_ok_pure _ (StSt.trans (stst_emitlnApp _ _)
        (StSt.trans (stst_emitlnApp _ _) (StSt.trans (stst_post_label _ _) (stst_emitlnApp _ _))))
    · intro a2 s3 t3 _ _ hpp4
      dsimp only
      have hpp5 := phasePair_map2
        (g := fun x => post_label
            (new_label (tally (fun cc => { cc with cFor := cc.cFor + 1 }) s1)).1
            (emitln ("<somehow store EAX to " ++ String.singleton name ++ ">")
              (emitln ("JO " ++
                  (new_label (new_label (tally (fun cc => { cc with cFor := cc.cFor + 1 }) s1)).2).1)
                (emitln "SUB EAX, EBX" (expression (emitln "MOV EBX, EAX"
                  (expression (emitln ("<somehow load " ++ String.singleton name ++ ">") x))))))))
        (h := fun x => post_label
            (new_label (tally (fun cc => { cc with cFor := cc.cFor + 1 }) t1)).1
            (emitln ("<somehow store EAX to " ++ String.singleton name ++ ">")
              (emitln ("JO " ++
                  (new_label (new_label (tally (fun cc => { cc with cFor := cc.cFor + 1 }) t1)).2).1)
                (emitln "SUB EAX, EBX" (expression (emitln "MOV EBX, EAX"
                  (expression (emitln ("<somehow load " ++ String.singleton name ++ ">") x))))))))
        (by refine ⟨?_, ?_, ?_, ?_, ?_⟩ <;> intro x <;>
          simp [emitln, emit, post_label, expression])
        (by refine ⟨?_, ?_, ?_, ?_, ?_⟩ <;> intro x <;>
          simp [emitln, emit, post_label, expression])
        (fun s4 t4 hb => by
          obtain ⟨f1, f2, f3, f4, f5, f6, f7⟩ := hb
          refine ⟨?_, ?_, ?_, ?_, ?_, ?_, ?_⟩ <;>
            simp [emitln, emit, post_label, expression, new_label, tally, e1,
              f1, f2, f3, f4, f5, f6, f7])
        hpp4
      refine Sim.bindSim (hblkSim _ _ hpp5) ?_ ?_ ?_
      · intro a3 s4
        refine StepOK.bindStep (stepOK_match 'e' s4) ?_
        intro _ s5 _
        exact stepOK_ok_pure _ (StSt.trans (stst_emitlnApp _ _)
          (StSt.trans (stst_emitlnApp _ _) (StSt.trans (stst_post_label _ _) (stst_emitlnApp _ _))))
      · intro a3 s4 t4 _ _ hpp6
        refine SimC.bindSimC (match_sim 'e' hi hc hpp6) ?_ ?_
        · intro a4 s5
          exact stepOK_ok_pure _ (StSt.trans (stst_emitlnApp _ _)
            (StSt.trans (stst_emitlnApp _ _) (StSt.trans (stst_post_label _ _) (stst_emitlnApp _ _))))
        · intro a4 s5 t5 _ _ hpp7
          refine Or.inl ⟨rfl, ?_⟩
          exact phasePair_map2
            (g := fun x => emitln "POP EBX" (post_label
                (new_label (new_label (tally (fun cc => { cc with cFor := cc.cFor + 1 }) s1)).2).1
                (emitln ("JNZ " ++ (new_label (tally (fun cc => { cc with cFor := cc.cFor + 1 }) s1)).1)
                  (emitln ("<somehow SUB " ++ String.singleton name ++ ", 1>") x))))
            (h := fun x => emitln "POP EBX" (post_label
                (new_label (new_label (tally (fun cc => { cc with cFor := cc.cFor + 1 }) t1)).2).1
                (emitln ("JNZ " ++ (new_label (tally (fun cc => { cc with cFor := cc.cFor + 1 }) t1)).1)
                  (emitln ("<somehow SUB " ++ String.singleton name ++ ", 1>") x))))
            (by refine ⟨?_, ?_, ?_, ?_, ?_⟩ <;> intro x <;>
              simp [emitln, emit, post_label])
            (by refine ⟨?_, ?_, ?_, ?_, ?_⟩ <;> intro x <;>
              simp [emitln, emit, post_label])
            (fun s6 t6 hb => by
              obtain ⟨f1, f2, f3, f4, f5, f6, f7⟩ := hb
              refine ⟨?_, ?_, ?_, ?_, ?_, ?_, ?_⟩ <;>
                simp [emitln, emit, post_label, new_label, tally, e1,
                  f1, f2, f3, f4, f5, f6, f7])
            hpp7
      · intro a3 s4 _ h1' hpi' _
        refine dres_match_bind h1' hpi' ?_
        intro a4 s5
        exact stepOK_ok_pure _ (StSt.trans (stst_emitlnApp _ _)
          (StSt.trans (stst_emitlnApp _ _) (StSt.trans (stst_post_label _ _) (stst_emitlnApp _ _))))



theorem sim_if_aux {I : List Char} {i : Nat} {c c' : Char}
    (hi : i < I.length) (hc : I[i]? = some c)
    {blk : St → PR Unit}
    (hblkStep : ∀ s, StepOK s (blk s))
    (hblkSim : ∀ s t, PhasePair I i c c' s t → Sim I i c c' (blk s) (blk t))
    {s t : St} (hp : PhasePair I i c c' s t) :
    Sim I i c c' (if_aux blk s) (if_aux blk t) := by
  unfold if_aux
  refine SimC.bindSimC (match_sim 'i' hi hc hp) ?_ ?_
  · intro a s1
    dsimp only
    refine StepOK.bindStep (StSt.trans (StSt.trans (stst_tally_alloc1 _ _ ?_)
      (StSt.trans (stst_condition _) (stst_emitlnApp _ _))) (hblkStep _)) ?_
    · intro cc; simp only [weight]; omega
    intro _ s2 _
    refine StepOK.bindStep ?_ ?_
    · by_cases hl : s2.look = 'l'
      · rw [if_pos hl]
        refine StepOK.bindStep (stepOK_match 'l' s2) ?_
        intro _ s3 _
        dsimp only
        refine StepOK.bindStep (StSt.trans (StSt.trans (stst_tally_alloc1 _ _ ?_)
          (StSt.trans (stst_emitlnApp _ _) (stst_post_label _ _))) (hblkStep _)) ?_
        · intro cc; simp only [weight]; omega
        intro _ s4 _
        exact stepOK_ok_pure _ (StSt.refl s4)
      · rw [if_neg hl]
        exact stepOK_ok_pure _ (StSt.refl s2)
    · intro label2 s3 _
      refine StepOK.bindStep (stepOK_match 'e' s3) ?_
      intro _ s4 _
      exact stepOK_ok_pure _ (stst_post_label s4 label2)
  · intro a s1 t1 _ _ hpp1
    dsimp only
    have e1 : t1.labels = s1.labels := hpp1.1.1
    have hpp2 := phasePair_map2
      (g := fun x => emitln
        ("JZ " ++ (new_label (tally (fun cc => { cc with cIf := cc.cIf + 1 }) x)).1)
        (condition ((new_label (tally (fun cc => { cc with cIf := cc.cIf + 1 }) x)).2)))
      (h := fun x => emitln
        ("JZ " ++ (new_label (tally (fun cc => { cc with cIf := cc.cIf + 1 }) x)).1)
        (condition ((new_label (tally (fun cc => { cc with cIf := cc.cIf + 1 }) x)).2)))
      (by refine ⟨?_, ?_, ?_, ?_, ?_⟩ <;> intro x <;>
        simp [emitln, emit, condition, new_label, tally])
      (by refine ⟨?_, ?_, ?_, ?_, ?_⟩ <;> intro x <;>
        simp [emitln, emit, condition, new_label, tally])
      (fun s4 t4 hb => by
        obtain ⟨f1, f2, f3, f4, f5, f6, f7⟩ := hb
        refine ⟨?_, ?_, ?_, ?_, ?_, ?_, ?_⟩ <;>
          simp [emitln, emit, condition, new_label, tally,
            f1, f2, f3, f4, f5, f6, f7])
      hpp1
    refine Sim.bindSim (hblkSim _ _ hpp2) ?_ ?_ ?_
    · intro a2 s2
      refine StepOK.bindStep ?_ ?_
      · by_cases hl : s2.look = 'l'
        · rw [if_pos hl]
          refine StepOK.bindStep (stepOK_match 'l' s2) ?_
          intro _ s3 _
          dsimp only
          refine StepOK.bindStep (StSt.trans (StSt.trans (stst_tally_alloc1 _ _ ?_)
            (StSt.trans (stst_emitlnApp _ _) (stst_post_label _ _))) (hblkStep _)) ?_
          · intro cc; simp only [weight]; omega
          intro _ s4 _
          exact stepOK_ok_pure _ (StSt.refl s4)
        · rw [if_neg hl]
          exact stepOK_ok_pure _ (StSt.refl s2)
      · intro label2 s3 _
        refine StepOK.bindStep (stepOK_match 'e' s3) ?_
        intro _ s4 _
        exact stepOK_ok_pure _ (stst_post_label s4 label2)
    · intro a2 s2 t2 _ _ hpp3
      rcases hpp3.2.2.2 with hphA | hphB | hphC
      · have hlk : t2.look = s2.look := hphA.2.1
        by_cases hl : s2.look = 'l'
        · rw [if_pos hl, if_pos (show t2.look = 'l' from hlk.trans hl),
            PR.bind_assoc, PR.bind_assoc]
          refine SimC.bindSimC (match_sim 'l' hi hc hpp3) ?_ ?_
          · -- the continuation after a successful match of the else marker
            intro a3 s3
            dsimp only
            refine StepOK.bindStep ?_ ?_
            · refine StepOK.bindStep (StSt.trans (StSt.trans (stst_tally_alloc1 _ _ ?_)
                (StSt.trans (stst_emitlnApp _ _) (stst_post_label _ _))) (hblkStep _)) ?_
              · intro cc; simp only [weight]; omega
              intro _ s5 _
              exact stepOK_ok_pure _ (StSt.refl s5)
            · intro label2 s5 _
              refine StepOK.bindStep (stepOK_match 'e' s5) ?_
              intro _ s6 _
              exact stepOK_ok_pure _ (stst_post_label s6 label2)
          · intro a3 s3 t3 _ _ hpp4
            dsimp only
            have e2 : t3.labels = s3.labels := hpp4.1.1
            rw [PR.bind_assoc, PR.bind_assoc]
            have hpp5 := phasePair_map2
              (g := fun x => post_label
                  (new_label (tally (fun cc => { cc with cIf := cc.cIf + 1 }) s1)).1
                  (emitln ("JMP " ++ (new_label (tally (fun cc => { cc with cElse := cc.cElse + 1 }) x)).1)
                    ((new_label (tally (fun cc => { cc with cElse := cc.cElse + 1 }) x)).2)))
              (h := fun x => post_label
                  (new_label (tally (fun cc => { cc with cIf := cc.cIf + 1 }) t1)).1
                  (emitln ("JMP " ++ (new_label (tally (fun cc => { cc with cElse := cc.cElse + 1 }) x)).1)
                    ((new_label (tally (fun cc => { cc with cElse := cc.cElse + 1 }) x)).2)))
              (by refine ⟨?_, ?_, ?_, ?_, ?_⟩ <;> intro x <;>
                simp [emitln, emit, post_label, new_label, tally])
              (by refine ⟨?_, ?_, ?_, ?_, ?_⟩ <;> intro x <;>
                simp [emitln, emit, post_label, new_label, tally])
              (fun s6 t6 hb => by
                obtain ⟨f1, f2, f3, f4, f5, f6, f7⟩ := hb
                refine ⟨?_, ?_, ?_, ?_, ?_, ?_, ?_⟩ <;>
                  simp [emitln, emit, post_label, new_label, tally, e1,
                    f1, f2, f3, f4, f5, f6, f7])
              hpp4
            refine Sim.bindSim (hblkSim _ _ hpp5) ?_ ?_ ?_
            · intro a4 s4
              simp only [PR.bind]
              refine StepOK.bindStep (stepOK_match 'e' s4) ?_
              intro _ s5 _
              exact stepOK_ok_pure _ (stst_post_label s5 _)
            · intro a4 s4 t4 _ _ hpp6
              simp only [PR.bind]
              refine SimC.bindSimC (match_sim 'e' hi hc hpp6) ?_ ?_
              · intro a5 s5
                exact stepOK_ok_pure _ (stst_post_label s5 _)
              · intro a5 s5 t5 _ _ hpp7
                refine Or.inl ⟨rfl, ?_⟩
                exact phasePair_map2
                  (g := fun x => post_label
                    (new_label (tally (fun cc => { cc with cElse := cc.cElse + 1 }) s3)).1 x)
                  (h := fun x => post_label
                    (new_label (tally (fun cc => { cc with cElse := cc.cElse + 1 }) t3)).1 x)
                  (by refine ⟨?_, ?_, ?_, ?_, ?_⟩ <;> intro x <;>
                    simp [emit, post_label])
                  (by refine ⟨?_, ?_, ?_, ?_, ?_⟩ <;> intro x <;>
                    simp [emit, post_label])
                  (fun s6 t6 hb => by
                    obtain ⟨f1, f2, f3, f4, f5, f6, f7⟩ := hb
                    refine ⟨?_, ?_, ?_, ?_, ?_, ?_, ?_⟩ <;>
                      simp [emit, post_label, new_label, tally, e2,
                        f1, f2, f3, f4, f5, f6, f7])
                  hpp7
            · intro a4 s4 _ h1i hpii _
              simp only [PR.bind]
              exact dres_match_bind h1i hpii
                (fun a5 s5 => stepOK_ok_pure _ (stst_post_label s5 _))
        · rw [if_neg hl, if_neg (show ¬t2.look = 'l' from fun hx => hl (hlk.symm.trans hx))]
          simp only [PR.bind]
          refine SimC.bindSimC (match_sim 'e' hi hc hpp3) ?_ ?_
          · intro a3 s3
            exact stepOK_ok_pure _ (stst_post_label s3 _)
          · intro a3 s3 t3 _ _ hpp4
            refine Or.inl ⟨rfl, ?_⟩
            exact phasePair_map2
              (g := fun x => post_label
                (new_label (tally (fun cc => { cc with cIf := cc.cIf + 1 }) s1)).1 x)
              (h := fun x => post_label
                (new_label (tally (fun cc => { cc with cIf := cc.cIf + 1 }) t1)).1 x)
              (by refine ⟨?_, ?_, ?_, ?_, ?_⟩ <;> intro x <;>
                simp [emit, post_label])
              (by refine ⟨?_, ?_, ?_, ?_, ?_⟩ <;> intro x <;>
                simp [emit, post_label])
              (fun s6 t6 hb => by
                obtain ⟨f1, f2, f3, f4, f5, f6, f7⟩ := hb
                refine ⟨?_, ?_, ?_, ?_, ?_, ?_, ?_⟩ <;>
                  simp [emit, post_label, new_label, tally, e1,
                    f1, f2, f3, f4, f5, f6, f7])
              hpp4
      · have hpi3 : s2.pos = i + 1 := hphB.1
        have h1i : i ∉ reads s2 := notin_reads_of_posB hpp3.2.1 hpi3
        refine Or.inr (Or.inl ?_)
        by_cases hl : s2.look = 'l'
        · rw [if_pos hl, PR.bind_assoc]
          refine dres_match_bind h1i hpi3 ?_
          intro a3 s3
          dsimp only
          refine StepOK.bindStep ?_ ?_
          · refine StepOK.bindStep (StSt.trans (StSt.trans (stst_tally_alloc1 _ _ ?_)
              (StSt.trans (stst_emitlnApp _ _) (stst_post_label _ _))) (hblkStep _)) ?_
            · intro cc; simp only [weight]; omega
            intro _ s5 _
            exact stepOK_ok_pure _ (StSt.refl s5)
          · intro label2 s5 _
            refine StepOK.bindStep (stepOK_match 'e' s5) ?_
            intro _ s6 _
            exact stepOK_ok_pure _ (stst_post_label s6 label2)
        · rw [if_neg hl]
          simp only [PR.bind]
          exact dres_match_bind h1i hpi3
            (fun a3 s3 => stepOK_ok_pure _ (stst_post_label s3 _))
      · have hlk : t2.look = s2.look := hphC.1
        by_cases hl : s2.look = 'l'
        · rw [if_pos hl, if_pos (show t2.look = 'l' from hlk.trans hl),
            PR.bind_assoc, PR.bind_assoc]
          refine SimC.bindSimC (match_sim 'l' hi hc hpp3) ?_ ?_
          · -- the continuation after a successful match of the else marker
            intro a3 s3
            dsimp only
            refine StepOK.bindStep ?_ ?_
            · refine StepOK.bindStep (StSt.trans (StSt.trans (stst_tally_alloc1 _ _ ?_)
                (StSt.trans (stst_emitlnApp _ _) (stst_post_label _ _))) (hblkStep _)) ?_
              · intro cc; simp only [weight]; omega
              intro _ s5 _
              exact stepOK_ok_pure _ (StSt.refl s5)
            · intro label2 s5 _
              refine StepOK.bindStep (stepOK_match 'e' s5) ?_
              intro _ s6 _
              exact stepOK_ok_pure _ (stst_post_label s6 label2)
          · intro a3 s3 t3 _ _ hpp4
            dsimp only
            have e2 : t3.labels = s3.labels := hpp4.1.1
            rw [PR.bind_assoc, PR.bind_assoc]
            have hpp5 := phasePair_map2
              (g := fun x => post_label
                  (new_label (tally (fun cc => { cc with cIf := cc.cIf + 1 }) s1)).1
                  (emitln ("JMP " ++ (new_label (tally (fun cc => { cc with cElse := cc.cElse + 1 }) x)).1)
                    ((new_label (tally (fun cc => { cc with cElse := cc.cElse + 1 }) x)).2)))
              (h := fun x => post_label
                  (new_label (tally (fun cc => { cc with cIf := cc.cIf + 1 }) t1)).1
                  (emitln ("JMP " ++ (new_label (tally (fun cc => { cc with cElse := cc.cElse + 1 }) x)).1)
                    ((new_label (tally (fun cc => { cc with cElse := cc.cElse + 1 }) x)).2)))
              (by refine ⟨?_, ?_, ?_, ?_, ?_⟩ <;> intro x <;>
                simp [emitln, emit, post_label, new_label, tally])
              (by refine ⟨?_, ?_, ?_, ?_, ?_⟩ <;> intro x <;>
                simp [emitln, emit, post_label, new_label, tally])
              (fun s6 t6 hb => by
                obtain ⟨f1, f2, f3, f4, f5, f6, f7⟩ := hb
                refine ⟨?_, ?_, ?_, ?_, ?_, ?_, ?_⟩ <;>
                  simp [emitln, emit, post_label, new_label, tally, e1,
                    f1, f2, f3, f4, f5, f6, f7])
              hpp4
            refine Sim.bindSim (hblkSim _ _ hpp5) ?_ ?_ ?_
            · intro a4 s4
              simp only [PR.bind]
              refine StepOK.bindStep (stepOK_match 'e' s4) ?_
              intro _ s5 _
              exact stepOK_ok_pure _ (stst_post_label s5 _)
            · intro a4 s4 t4 _ _ hpp6
              simp only [PR.bind]
              refine SimC.bindSimC (match_sim 'e' hi hc hpp6) ?_ ?_
              · intro a5 s5
                exact stepOK_ok_pure _ (stst_post_label s5 _)
              · intro a5 s5 t5 _ _ hpp7
                refine Or.inl ⟨rfl, ?_⟩
                exact phasePair_map2
                  (g := fun x => post_label
                    (new_label (tally (fun cc => { cc with cElse := cc.cElse + 1 }) s3)).1 x)
                  (h := fun x => post_label
                    (new_label (tally (fun cc => { cc with cElse := cc.cElse + 1 }) t3)).1 x)
                  (by refine ⟨?_, ?_, ?_, ?_, ?_⟩ <;> intro x <;>
                    simp [emit, post_label])
                  (by refine ⟨?_, ?_, ?_, ?_, ?_⟩ <;> intro x <;>
                    simp [emit, post_label])
                  (fun s6 t6 hb => by
                    obtain ⟨f1, f2, f3, f4, f5, f6, f7⟩ := hb
                    refine ⟨?_, ?_, ?_, ?_, ?_, ?_, ?_⟩ <;>
                      simp [emit, post_label, new_label, tally, e2,
                        f1, f2, f3, f4, f5, f6, f7])
                  hpp7
            · intro a4 s4 _ h1i hpii _
              simp only [PR.bind]
              exact dres_match_bind h1i hpii
                (fun a5 s5 => stepOK_ok_pure _ (stst_post_label s5 _))
        · rw [if_neg hl, if_neg (show ¬t2.look = 'l' from fun hx => hl (hlk.symm.trans hx))]
          simp only [PR.bind]
          refine SimC.bindSimC (match_sim 'e' hi hc hpp3) ?_ ?_
          · intro a3 s3
            exact stepOK_ok_pure _ (stst_post_label s3 _)
          · intro a3 s3 t3 _ _ hpp4
            refine Or.inl ⟨rfl, ?_⟩
            exact phasePair_map2
              (g := fun x => post_label
                (new_label (tally (fun cc => { cc with cIf := cc.cIf + 1 }) s1)).1 x)
              (h := fun x => post_label
                (new_label (tally (fun cc => { cc with cIf := cc.cIf + 1 }) t1)).1 x)
              (by refine ⟨?_, ?_, ?_, ?_, ?_⟩ <;> intro x <;>
                simp [emit, post_label])
              (by refine ⟨?_, ?_, ?_, ?_, ?_⟩ <;> intro x <;>
                simp [emit, post_label])
              (fun s6 t6 hb => by
                obtain ⟨f1, f2, f3, f4, f5, f6, f7⟩ := hb
                refine ⟨?_, ?_, ?_, ?_, ?_, ?_, ?_⟩ <;>
                  simp [emit, post_label, new_label, tally, e1,
                    f1, f2, f3, f4, f5, f6, f7])
              hpp4
    · intro a2 s2 _ h1i hpi3 _
      by_cases hl : s2.look = 'l'
      · rw [if_pos hl, PR.bind_assoc]
        refine dres_match_bind h1i hpi3 ?_
        intro a3 s3
        dsimp only
        refine StepOK.bindStep ?_ ?_
        · refine StepOK.bindStep (StSt.trans (StSt.trans (stst_tally_alloc1 _ _ ?_)
            (StSt.trans (stst_emitlnApp _ _) (stst_post_label _ _))) (hblkStep _)) ?_
          · intro cc; simp only [weight]; omega
          intro _ s5 _
          exact stepOK_ok_pure _ (StSt.refl s5)
        · intro label2 s5 _
          refine StepOK.bindStep (stepOK_match 'e' s5) ?_
          intro _ s6 _
          exact stepOK_ok_pure _ (stst_post_label s6 label2)
      · rw [if_neg hl]
        simp only [PR.bind]
        exact dres_match_bind h1i hpi3
          (fun a3 s3 => stepOK_ok_pure _ (stst_post_label s3 _))


/-- A single non-reserved character differs from each of the nine
structural dispatch characters. -/
theorem notReserved_chars {x : Char} (h : reservedChar x = false) :
    x ≠ 'i' ∧ x ≠ 'w' ∧ x ≠ 'p' ∧ x ≠ 'r' ∧ x ≠ 'f' ∧ x ≠ 'd'
      ∧ x ≠ 'e' ∧ x ≠ 'l' ∧ x ≠ 'u' := by
  refine ⟨?_, ?_, ?_, ?_, ?_, ?_, ?_, ?_, ?_⟩ <;>
    (intro hx; subst hx; exact Bool.noConfusion h)

theorem dead_if_aux {blk : St → PR Unit} (hblkStep : ∀ s, StepOK s (blk s))
    {i : Nat} {s : St} (h1 : i ∉ reads s) (hpi : s.pos = i + 1) :
    DRes i (if_aux blk s) := by
  unfold if_aux
  refine dres_match_bind h1 hpi ?_
  intro a s1
  dsimp only
  refine StepOK.bindStep (StSt.trans (StSt.trans (stst_tally_alloc1 _ _ ?_)
    (StSt.trans (stst_condition _) (stst_emitlnApp _ _))) (hblkStep _)) ?_
  · intro cc; simp only [weight]; omega
  intro _ s2 _
  refine StepOK.bindStep ?_ ?_
  · by_cases hl : s2.look = 'l'
    · rw [if_pos hl]
      refine StepOK.bindStep (stepOK_match 'l' s2) ?_
      intro _ s3 _
      dsimp only
      refine StepOK.bindStep (StSt.trans (StSt.trans (stst_tally_alloc1 _ _ ?_)
        (StSt.trans (stst_emitlnApp _ _) (stst_post_label _ _))) (hblkStep _)) ?_
      · intro cc; simp only [weight]; omega
      intro _ s4 _
      exact stepOK_ok_pure _ (StSt.refl s4)
    · rw [if_neg hl]
      exact stepOK_ok_pure _ (StSt.refl s2)
  · intro label2 s3 _
    refine StepOK.bindStep (stepOK_match 'e' s3) ?_
    intro _ s4 _
    exact stepOK_ok_pure _ (stst_post_label s4 label2)

theorem dead_while_aux {blk : St → PR Unit} (hblkStep : ∀ s, StepOK s (blk s))
    {i : Nat} {s : St} (h1 : i ∉ reads s) (hpi : s.pos = i + 1) :
    DRes i (while_aux blk s) := by
  unfold while_aux
  refine dres_match_bind h1 hpi ?_
  intro a s1
  dsimp only
  refine StepOK.bindStep (StSt.trans (StSt.trans
    (stst_tally_alloc2 _ _ (fun cc => by simp only [weight]; omega))
    (StSt.trans (stst_post_label _ _)
      (StSt.trans (stst_condition _) (stst_emitlnApp _ _)))) (hblkStep _)) ?_
  intro _ s2 _
  refine StepOK.bindStep (stepOK_match 'e' s2) ?_
  intro _ s3 _
  exact stepOK_ok_pure _ (StSt.trans (stst_emitlnApp _ _) (stst_post_label _ _))

theorem dead_loop_aux {blk : St → PR Unit} (hblkStep : ∀ s, StepOK s (blk s))
    {i : Nat} {s : St} (h1 : i ∉ reads s) (hpi : s.pos = i + 1) :
    DRes i (loop_aux blk s) := by
  unfold loop_aux
  refine dres_match_bind h1 hpi ?_
  intro a s1
  dsimp only
  refine StepOK.bindStep (StSt.trans (StSt.trans
    (stst_tally_alloc1 _ _ (fun cc => by simp only [weight]; omega))
    (stst_post_label _ _)) (hblkStep _)) ?_
  intro _ s2 _
  refine StepOK.bindStep (stepOK_match 'e' s2) ?_
  intro _ s3 _
  exact stepOK_ok_pure _ (stst_emitlnApp _ _)

theorem dead_repeat_aux {blk : St → PR Unit} (hblkStep : ∀ s, StepOK s (blk s))
    {i : Nat} {s : St} (h1 : i ∉ reads s) (hpi : s.pos = i + 1) :
    DRes i (repeat_aux blk s) := by
  unfold repeat_aux
  refine dres_match_bind h1 hpi ?_
  intro a s1
  dsimp only
  refine StepOK.bindStep (StSt.trans (StSt.trans
    (stst_tally_alloc1 _ _ (fun cc => by simp only [weight]; omega))
    (stst_post_label _ _)) (hblkStep _)) ?_
  intro _ s2 _
  refine StepOK.bindStep (stepOK_match 'u' s2) ?_
  intro _ s3 _
  exact stepOK_ok_pure _ (StSt.trans (stst_condition _) (stst_emitlnApp _ _))

theorem dead_do_aux {blk : St → PR Unit} (hblkStep : ∀ s, StepOK s (blk s))
    {i : Nat} {s : St} (h1 : i ∉ reads s) (hpi : s.pos = i + 1) :
    DRes i (do_aux blk s) := by
  unfold do_aux
  refine dres_match_bind h1 hpi ?_
  intro a s1
  dsimp only
  refine StepOK.bindStep (StSt.trans (StSt.trans
    (stst_tally_alloc1 _ _ (fun cc => by simp only [weight]; omega))
    (StSt.trans (stst_expression _) (StSt.trans (stst_emitlnApp _ _)
      (stst_post_label _ _)))) (hblkStep _)) ?_
  intro _ s2 _
  refine StepOK.bindStep (StSt.trans (stst_emitlnApp _ _) (stepOK_match 'e' _)) ?_
  intro _ s3 _
  exact stepOK_ok_pure _ (StSt.refl s3)

theorem dead_for_aux {blk : St → PR Unit} (hblkStep : ∀ s, StepOK s (blk s))
    {i : Nat} {s : St} (h1 : i ∉ reads s) (hpi : s.pos = i + 1) :
    DRes i (for_aux blk s) := by
  unfold for_aux
  dsimp only
  refine dres_match_bind
    (show i ∉ reads (emitln "PUSH EBX" s) by simpa [reads, emitln] using h1)
    (show (emitln "PUSH EBX" s).pos = i + 1 by simpa [emitln] using hpi) ?_
  intro a s1
  dsimp only
  refine StepOK.bindStep (StSt.trans (stst_tally_alloc2 _ _ ?_) (stepOK_get_name_for _)) ?_
  · intro cc; simp only [weight]; omega
  intro name s2 _
  refine StepOK.bindStep (stepOK_match '=' s2) ?_
  intro _ s3 _
  dsimp only
  refine StepOK.bindStep (StSt.trans (StSt.trans (stst_emitlnApp _ _)
    (StSt.trans (stst_expression _) (StSt.trans (stst_emitlnApp _ _)
    (StSt.trans (stst_expression _) (StSt.trans (stst_emitlnApp _ _)
    (StSt.trans (stst_emitlnApp _ _) (StSt.trans (stst_emitlnApp _ _)
    (stst_post_label _ _)))))))) (hblkStep _)) ?_
  intro _ s4 _
  refine StepOK.bindStep (stepOK_match 'e' s4) ?_
  intro _ s5 _
  exact stepOK_ok_pure _ (StSt.trans (stst_emitlnApp _ _)
    (StSt.trans (stst_emitlnApp _ _) (StSt.trans (stst_post_label _ _) (stst_emitlnApp _ _))))

/-- If the bare-identifier production runs with the difference index in
the lookahead, it either fails in `read` or ghost-records that index in
`otherReads`; with a structural replacement character this is the
hypothesis-refuting escape. -/
theorem dead_other {i : Nat} {c c' : Char} (halpha : asciiIsAlpha c = true)
    (hres : reservedChar c' = true) {s : St} (h1 : i ∉ reads s)
    (hpi : s.pos = i + 1) (hlc : s.look = c) :
    Dead i c' (other s) := by
  unfold other get_name_other get_name
  rw [if_pos (show asciiIsAlpha s.look = true by rw [hlc]; exact halpha)]
  unfold read
  cases hin : s.input with
  | nil =>
    refine Or.inl ⟨?_, Or.inl ?_⟩
    · simp only [PR.bind, PR.st]
      exact h1
    · simp [PR.bind, PR.isOk]
  | cons ch rest =>
    refine Or.inr ⟨?_, hres⟩
    simp only [PR.bind, PR.st, emitln, emit]
    simp only [List.mem_append, List.mem_singleton]
    right
    omega

/-- Lockstep simulation of the dispatch loop: either the two runs stay
paired, or the first run has made the claim's hypotheses unsatisfiable. -/
theorem block_sim {I : List Char} {i : Nat} {c c' : Char}
    (hi : i < I.length) (hc : I[i]? = some c)
    (halpha : asciiIsAlpha c = true) (hswap : c' = swapCase c) :
    ∀ (fuel : Nat) (s t : St), PhasePair I i c c' s t →
      Sim I i c c' (block fuel s) (block fuel t) := by
  intro fuel
  induction fuel with
  | zero =>
    intro s t hp
    exact Or.inl hp
  | succ fuel ih =>
    intro s t hp
    have hmain : t.look = s.look →
        Sim I i c c' (block (fuel + 1) s) (block (fuel + 1) t) := by
      intro hlk
      unfold block
      rw [hlk]
      by_cases hq0 : s.look = 'i'
      · rw [if_pos hq0, if_pos hq0]
        exact Sim.bindSim (sim_if_aux hi hc (stepOK_block fuel) ih hp)
          (fun a s1 => stepOK_block fuel s1) (fun a s1 t1 _ _ hpp => ih s1 t1 hpp)
          (fun a s1 _ h1i hpii helui => block_elu_dead fuel h1i hpii helui)
      · rw [if_neg hq0, if_neg hq0]
        by_cases hq1 : s.look = 'w'
        · rw [if_pos hq1, if_pos hq1]
          exact Sim.bindSim (sim_while_aux hi hc (stepOK_block fuel) ih hp)
            (fun a s1 => stepOK_block fuel s1) (fun a s1 t1 _ _ hpp => ih s1 t1 hpp)
            (fun a s1 _ h1i hpii helui => block_elu_dead fuel h1i hpii helui)
        · rw [if_neg hq1, if_neg hq1]
          by_cases hq2 : s.look = 'p'
          · rw [if_pos hq2, if_pos hq2]
            exact Sim.bindSim (sim_loop_aux hi hc (stepOK_block fuel) ih hp)
              (fun a s1 => stepOK_block fuel s1) (fun a s1 t1 _ _ hpp => ih s1 t1 hpp)
              (fun a s1 _ h1i hpii helui => block_elu_dead fuel h1i hpii helui)
          · rw [if_neg hq2, if_neg hq2]
            by_cases hq3 : s.look = 'r'
            · rw [if_pos hq3, if_pos hq3]
              exact Sim.bindSim (sim_repeat_aux hi hc (stepOK_block fuel) ih hp)
                (fun a s1 => stepOK_block fuel s1) (fun a s1 t1 _ _ hpp => ih s1 t1 hpp)
                (fun a s1 _ h1i hpii helui => block_elu_dead fuel h1i hpii helui)
            · rw [if_neg hq3, if_neg hq3]
              by_cases hq4 : s.look = 'f'
              · rw [if_pos hq4, if_pos hq4]
                exact Sim.bindSim (sim_for_aux hi hc halpha hswap (stepOK_block fuel) ih hp)
                  (fun a s1 => stepOK_block fuel s1) (fun a s1 t1 _ _ hpp => ih s1 t1 hpp)
                  (fun a s1 _ h1i hpii helui => block_elu_dead fuel h1i hpii helui)
              · rw [if_neg hq4, if_neg hq4]
                by_cases hq5 : s.look = 'd'
                · rw [if_pos hq5, if_pos hq5]
                  exact Sim.bindSim (sim_do_aux hi hc (stepOK_block fuel) ih hp)
                    (fun a s1 => stepOK_block fuel s1) (fun a s1 t1 _ _ hpp => ih s1 t1 hpp)
                    (fun a s1 _ h1i hpii helui => block_elu_dead fuel h1i hpii helui)
                · rw [if_neg hq5, if_neg hq5]
                  by_cases hq6 : s.look = 'e'
                  · rw [if_pos hq6, if_pos hq6]
                    exact Or.inl ⟨rfl, hp⟩
                  · rw [if_neg hq6, if_neg hq6]
                    by_cases hq7 : s.look = 'l'
                    · rw [if_pos hq7, if_pos hq7]
                      exact Or.inl ⟨rfl, hp⟩
                    · rw [if_neg hq7, if_neg hq7]
                      by_cases hq8 : s.look = 'u'
                      · rw [if_pos hq8, if_pos hq8]
                        exact Or.inl ⟨rfl, hp⟩
                      · rw [if_neg hq8, if_neg hq8]
                        exact Sim.bindSim (sim_other hi hc halpha hswap hp)
                          (fun a s1 => stepOK_block fuel s1) (fun a s1 t1 _ _ hpp => ih s1 t1 hpp)
                          (fun a s1 _ h1i hpii helui => block_elu_dead fuel h1i hpii helui)
    rcases hp.2.2.2 with hph | hph | hph
    · exact hmain hph.2.1
    · obtain ⟨hpi, hlc, htc, hti⟩ := hph
      have hnotr : i ∉ reads s := notin_reads_of_posB hp.2.1 hpi
      unfold block
      by_cases hq0 : s.look = 'i'
      · rw [if_pos hq0]
        exact Or.inr (Or.inl (DRes.bindDRes (dead_if_aux (stepOK_block fuel) hnotr hpi)
          (fun a s1 => stepOK_block fuel s1)
          (fun a s1 _ h1i hpii helui => block_elu_dead fuel h1i hpii helui)))
      · rw [if_neg hq0]
        by_cases hq1 : s.look = 'w'
        · rw [if_pos hq1]
          exact Or.inr (Or.inl (DRes.bindDRes (dead_while_aux (stepOK_block fuel) hnotr hpi)
            (fun a s1 => stepOK_block fuel s1)
            (fun a s1 _ h1i hpii helui => block_elu_dead fuel h1i hpii helui)))
        · rw [if_neg hq1]
          by_cases hq2 : s.look = 'p'
          · rw [if_pos hq2]
            exact Or.inr (Or.inl (DRes.bindDRes (dead_loop_aux (stepOK_block fuel) hnotr hpi)
              (fun a s1 => stepOK_block fuel s1)
              (fun a s1 _ h1i hpii helui => block_elu_dead fuel h1i hpii helui)))
          · rw [if_neg hq2]
            by_cases hq3 : s.look = 'r'
            · rw [if_pos hq3]
              exact Or.inr (Or.inl (DRes.bindDRes (dead_repeat_aux (stepOK_block fuel) hnotr hpi)
                (fun a s1 => stepOK_block fuel s1)
                (fun a s1 _ h1i hpii helui => block_elu_dead fuel h1i hpii helui)))
            · rw [if_neg hq3]
              by_cases hq4 : s.look = 'f'
              · rw [if_pos hq4]
                exact Or.inr (Or.inl (DRes.bindDRes (dead_for_aux (stepOK_block fuel) hnotr hpi)
                  (fun a s1 => stepOK_block fuel s1)
                  (fun a s1 _ h1i hpii helui => block_elu_dead fuel h1i hpii helui)))
              · rw [if_neg hq4]
                by_cases hq5 : s.look = 'd'
                · rw [if_pos hq5]
                  exact Or.inr (Or.inl (DRes.bindDRes (dead_do_aux (stepOK_block fuel) hnotr hpi)
                    (fun a s1 => stepOK_block fuel s1)
                    (fun a s1 _ h1i hpii helui => block_elu_dead fuel h1i hpii helui)))
                · rw [if_neg hq5]
                  by_cases hq6 : s.look = 'e'
                  · rw [if_pos hq6]
                    exact Or.inr (Or.inl ⟨hnotr, Or.inr (Or.inr ⟨hpi, Or.inl hq6⟩)⟩)
                  · rw [if_neg hq6]
                    by_cases hq7 : s.look = 'l'
                    · rw [if_pos hq7]
                      exact Or.inr (Or.inl ⟨hnotr, Or.inr (Or.inr ⟨hpi, Or.inr (Or.inl hq7)⟩)⟩)
                    · rw [if_neg hq7]
                      by_cases hq8 : s.look = 'u'
                      · rw [if_pos hq8]
                        exact Or.inr (Or.inl ⟨hnotr, Or.inr (Or.inr ⟨hpi, Or.inr (Or.inr hq8)⟩)⟩)
                      · rw [if_neg hq8]
                        by_cases hres : reservedChar c' = true
                        · exact Or.inr (Dead.bindDead (dead_other halpha hres hnotr hpi hlc)
                            (fun a s1 => stepOK_block fuel s1)
                            (fun a s1 _ h1i hpii helui => block_elu_dead fuel h1i hpii helui))
                        · have hresf : reservedChar c' = false := by
                            revert hres; cases reservedChar c' <;> simp
                          obtain ⟨n1, n2, n3, n4, n5, n6, n7, n8, n9⟩ := notReserved_chars hresf
                          rw [if_neg (show ¬t.look = 'i' from fun hx => n1 (htc.symm.trans hx)),
                            if_neg (show ¬t.look = 'w' from fun hx => n2 (htc.symm.trans hx)),
                            if_neg (show ¬t.look = 'p' from fun hx => n3 (htc.symm.trans hx)),
                            if_neg (show ¬t.look = 'r' from fun hx => n4 (htc.symm.trans hx)),
                            if_neg (show ¬t.look = 'f' from fun hx => n5 (htc.symm.trans hx)),
                            if_neg (show ¬t.look = 'd' from fun hx => n6 (htc.symm.trans hx)),
                            if_neg (show ¬t.look = 'e' from fun hx => n7 (htc.symm.trans hx)),
                            if_neg (show ¬t.look = 'l' from fun hx => n8 (htc.symm.trans hx)),
                            if_neg (show ¬t.look = 'u' from fun hx => n9 (htc.symm.trans hx))]
                          exact Sim.bindSim (sim_other hi hc halpha hswap hp)
                            (fun a s1 => stepOK_block fuel s1) (fun a s1 t1 _ _ hpp => ih s1 t1 hpp)
                            (fun a s1 _ h1i hpii helui => block_elu_dead fuel h1i hpii helui)
    · exact hmain hph.1


/-- Lockstep simulation of the whole `program` production. -/
theorem program_sim {I : List Char} {i : Nat} {c c' : Char}
    (hi : i < I.length) (hc : I[i]? = some c)
    (halpha : asciiIsAlpha c = true) (hswap : c' = swapCase c)
    (fuel : Nat) {s t : St} (hp : PhasePair I i c c' s t) :
    Sim I i c c' (program fuel s) (program fuel t) := by
  unfold program
  refine Sim.bindSim (block_sim hi hc halpha hswap fuel s t hp) ?_ ?_ ?_
  · intro a s1
    by_cases he : s1.look ≠ 'e'
    · rw [if_pos he]
      exact StSt.refl s1
    · rw [if_neg he]
      exact stepOK_ok_pure _ (stst_emitlnApp _ _)
  · intro a s2 t2 _ _ hpp
    have hmain : t2.look = s2.look → Sim I i c c'
        (if s2.look ≠ 'e' then PR.err s2 ErrKind.unexpectedChar (expectedMsg "End")
          else PR.ok () (emitln "END" s2))
        (if t2.look ≠ 'e' then PR.err t2 ErrKind.unexpectedChar (expectedMsg "End")
          else PR.ok () (emitln "END" t2)) := by
      intro hlk
      by_cases he : s2.look ≠ 'e'
      · rw [if_pos he, if_pos (by rw [hlk]; exact he)]
        exact Or.inl ⟨rfl, rfl, hpp⟩
      · rw [if_neg he, if_neg (by rw [hlk]; exact he)]
        refine Or.inl ⟨rfl, ?_⟩
        exact phasePair_map2
          (g := fun x => emitln "END" x) (h := fun x => emitln "END" x)
          (by refine ⟨?_, ?_, ?_, ?_, ?_⟩ <;> intro x <;> simp [emitln])
          (by refine ⟨?_, ?_, ?_, ?_, ?_⟩ <;> intro x <;> simp [emitln])
          (fun s4 t4 hb => by
            obtain ⟨f1, f2, f3, f4, f5, f6, f7⟩ := hb
            refine ⟨?_, ?_, ?_, ?_, ?_, ?_, ?_⟩ <;>
              simp [emitln, f1, f2, f3, f4, f5, f6, f7])
          hpp
    rcases hpp.2.2.2 with hph | hph | hph
    · exact hmain hph.2.1
    · obtain ⟨hpi, hlc, htc, hti⟩ := hph
      have h1 : i ∉ reads s2 := notin_reads_of_posB hpp.2.1 hpi
      refine Or.inr (Or.inl ?_)
      by_cases he : s2.look ≠ 'e'
      · rw [if_pos he]
        exact ⟨h1, Or.inl rfl⟩
      · rw [if_neg he]
        exact ⟨by simpa [reads, emitln] using h1,
          Or.inr (Or.inr ⟨by simpa [emitln] using hpi,
            Or.inl (by simpa [emitln] using not_not.mp he)⟩)⟩
    · exact hmain hph.1
  · intro a s1 _ h1i hpii _
    by_cases he : s1.look ≠ 'e'
    · rw [if_pos he]
      exact ⟨h1i, Or.inl rfl⟩
    · rw [if_neg he]
      exact ⟨by simpa [reads, emitln] using h1i,
        Or.inr (Or.inr ⟨by simpa [emitln] using hpii,
          Or.inl (by simpa [emitln] using not_not.mp he)⟩)⟩

/-- Lockstep simulation of two whole runs whose inputs differ at one
position. -/
theorem runProgram_sim {inp : List Char} {i : Nat} {c c' : Char}
    (hi : i < inp.length) (hc : inp[i]? = some c)
    (halpha : asciiIsAlpha c = true) (hswap : c' = swapCase c) :
    Sim inp i c c' (runProgram inp) (runProgram (inp.set i c')) := by
  unfold runProgram init
  rw [List.length_set]
  cases inp with
  | nil => exact absurd hi (by simp)
  | cons x rest =>
    cases i with
    | zero =>
      have hxc : x = c := by simpa using hc
      subst hxc
      refine program_sim hi hc halpha hswap _ ?_
      refine ⟨⟨rfl, rfl, rfl, rfl, rfl, rfl, rfl⟩, ?_, le_refl _,
        Or.inr (Or.inl ⟨rfl, rfl, rfl, rfl⟩)⟩
      intro v hv
      simp [initSt] at hv
    | succ j =>
      refine program_sim hi hc halpha hswap _ ?_
      refine ⟨⟨rfl, rfl, rfl, rfl, rfl, rfl, rfl⟩, ?_, le_refl _,
        Or.inl ⟨Nat.succ_le_succ (Nat.zero_le j), rfl, rfl, rfl⟩⟩
      intro v hv
      simp [initSt] at hv


/-- Paired results have equal observable behaviour: same printed
output and same outcome. -/
theorem PairRes.obs_eq {I : List Char} {i : Nat} {c c' : Char}
    {r1 r2 : PR Unit} (h : PairRes I i c c' r1 r2) :
    obs r2 = obs r1 := by
  cases r1 with
  | ok a s =>
    cases r2 with
    | ok b t =>
      obtain ⟨hab, hpp⟩ := h
      simp [obs, ocOf, PR.st, hpp.1.2.1]
    | err t k2 m2 => exact h.elim
    | fuelOut t => exact h.elim
  | err s k m =>
    cases r2 with
    | ok b t => exact h.elim
    | err t k2 m2 =>
      obtain ⟨hk, hm, hpp⟩ := h
      simp [obs, ocOf, PR.st, hk, hm, hpp.1.2.1]
    | fuelOut t => exact h.elim
  | fuelOut s =>
    cases r2 with
    | ok b t => exact h.elim
    | err t k2 m2 => exact h.elim
    | fuelOut t =>
      simp [obs, ocOf, PR.st, h.1.2.1]

/-- C9 (corrected).  Replacing a character of the input with the same
letter in the opposite case preserves the emitted output and the
success/failure outcome, provided the run on the original input
actually consumed that character through `get_name` (the index is
ghost-recorded in `otherReads` or `forReads`), and — when it was
consumed at a bare-identifier statement — the replacement letter is not
one of the structural dispatch characters `i w p r f d e l u`.  The
unconditional form of the claim is refuted by `claim9_counterexample`:
get_name case-normalizes, but the *dispatch* in `block` that decides
whether `get_name` runs at all is case-sensitive. -/
theorem claim9_case_toggle (inp : List Char) (i : Nat) (c : Char)
    (hi : i < inp.length) (hc : inp[i]? = some c)
    (halpha : asciiIsAlpha c = true)
    (hrec : i ∈ reads (runProgram inp).st)
    (hprov : i ∈ (runProgram inp).st.otherReads →
      reservedChar (swapCase c) = false) :
    obs (runProgram (inp.set i (swapCase c))) = obs (runProgram inp) := by
  rcases runProgram_sim hi hc halpha rfl with hp | hd | hd
  · exact hp.obs_eq
  · exact absurd hrec hd.1
  · exact Bool.noConfusion ((hprov hd.1) ▸ hd.2)

theorem claim9_witness :
    0 < (['a', 'e'] : List Char).length
    ∧ (['a', 'e'] : List Char)[0]? = some 'a'
    ∧ asciiIsAlpha 'a' = true
    ∧ 0 ∈ reads (runProgram ['a', 'e']).st
    ∧ (0 ∈ (runProgram ['a', 'e']).st.otherReads →
        reservedChar (swapCase 'a') = false)
    ∧ obs (runProgram ((['a', 'e'] : List Char).set 0 (swapCase 'a')))
        = obs (runProgram ['a', 'e']) :=
  ⟨by decide, by decide, by decide, by decide, fun _ => by decide,
   claim9_case_toggle ['a', 'e'] 0 'a' (by decide) (by decide) (by decide)
     (by decide) (fun _ => by decide)⟩

/-- The unconditional reading of C9 is false: in `"Ie"` the `I` is
consumed by `get_name` at a bare-identifier statement, yet lowering it
to `i` turns the statement into an if-statement and the two runs have
different output and different outcomes. -/
theorem claim9_counterexample :
    0 < (['I', 'e'] : List Char).length
    ∧ (['I', 'e'] : List Char)[0]? = some 'I'
    ∧ asciiIsAlpha 'I' = true
    ∧ 0 ∈ reads (runProgram ['I', 'e']).st
    ∧ obs (runProgram ((['I', 'e'] : List Char).set 0 (swapCase 'I')))
        ≠ obs (runProgram ['I', 'e']) := by
  refine ⟨by decide, by decide, by decide, by decide, by decide⟩

end TranslatorControl
